import Mathlib

/-!
# Verification of the twitchirc/irclib core

Shallow embedding of the repository's core:
* `irclib/connection.py` — per-queue outbound buffering with cooldown throttling,
* `twitchirc/messages.py` — the protocol event model and its serialization,
* `twitchirc/bot.py` + `twitchirc/command.py` — command dispatch and the
  permission gate, and the message-handling part of the main loop.

Modelling conventions: wall-clock times are integers; wire payloads (Python
`bytes`) are strings; Python dicts with string keys are association lists with
unique keys (insertion order preserved, as in CPython); a Python function that
can raise returns the state as mutated so far together with an
`Except String _` describing the exception, and arbitrary client callbacks
(handler-bus handlers, command handler functions) are recorded in an event log
instead of being executed.  Socket writes are logged in `sent_lines`; the
receive side (socket reads) is real I/O and is not embedded.
-/

set_option linter.unusedVariables false

/-! ## Association lists: the model of Python `dict` with string keys -/

def lookupA {β : Type} : List (String × β) → String → Option β
  | [], _ => none
  | (k', v) :: rest, k => if k' = k then some v else lookupA rest k

/-- `d[k] = v`: replace the first binding of `k`, else append a new one
(CPython dicts keep insertion order). -/
def setA {β : Type} : List (String × β) → String → β → List (String × β)
  | [], k, v => [(k, v)]
  | (k', v') :: rest, k, v => if k' = k then (k, v) :: rest else (k', v') :: setA rest k v

/-- `del d[k]`: drop the first binding of `k`. -/
def delA {β : Type} : List (String × β) → String → List (String × β)
  | [], _ => []
  | (k', v') :: rest, k => if k' = k then rest else (k', v') :: delA rest k

def keysA {β : Type} (l : List (String × β)) : List String := l.map Prod.fst

/-! ## String helpers: models of the Python string operations used by the code -/

/-- Python `s.startswith(p)`. -/
def pyStartsWith (s p : String) : Bool := p.data.isPrefixOf s.data

/-- Python `s.replace('\r\n', '')`, on the character list: remove every
(left-to-right, non-overlapping) occurrence of CR LF. -/
def stripCRLF : List Char → List Char
  | [] => []
  | [c] => [c]
  | c :: d :: rest =>
    if c = '\r' ∧ d = '\n' then stripCRLF rest
    else c :: stripCRLF (d :: rest)

def stripRN (s : String) : String := ⟨stripCRLF s.data⟩

/-- Prepend a character to the first chunk of a chunk list. -/
def consHead (c : Char) : List (List Char) → List (List Char)
  | [] => [[c]]
  | chunk :: rest => (c :: chunk) :: rest

/-- Python `s.split(sep, maxsplit)` on the character list (single-character
separator, at most `maxsplit` splits, remainder kept whole). -/
def pySplitChar (sep : Char) : Nat → List Char → List (List Char)
  | _, [] => [[]]
  | 0, cs => [cs]
  | m + 1, c :: cs =>
    if c = sep then [] :: pySplitChar sep m cs
    else consHead c (pySplitChar sep (m + 1) cs)

def pySplit (s : String) (sep : Char) (maxsplit : Nat) : List String :=
  (pySplitChar sep maxsplit s.data).map (fun cs => ⟨cs⟩)

/-- Python `s.split(sep)` (no maxsplit: the string length bounds the number of
possible splits). -/
def pySplitAll (s : String) (sep : Char) : List String := pySplit s sep s.data.length

/-- Python `l[i]`, raising IndexError when out of range. -/
def pyIndex {α : Type} (l : List α) (i : Nat) : Except String α :=
  match l.get? i with
  | some v => .ok v
  | none => .error "IndexError"

/-- Python `c in s` for a single-character needle. -/
def pyContainsChar (s : String) (c : Char) : Bool := s.data.contains c

/-- Python `str(x)` for `x : Optional[str]` (`str(None) = 'None'`). -/
def pyStrOfOptHost : Option String → String
  | some h => h
  | none => "None"

/-! ## Message model (`twitchirc/messages.py`) -/

/-- A parsed IRCv3 tag value: a single string, or a list when the raw value
contains commas. -/
inductive FlagVal where
  | s (v : String)
  | l (vs : List String)
deriving Repr, DecidableEq

/-- `process_twitch_flags(flags)`: strip the leading `@`, split on `;`, split
each item on the first `=` (IndexError when there is no `=`), split the value
on `,` when it contains one; later keys overwrite earlier ones. -/
def process_twitch_flags_item (output : List (String × FlagVal)) (item : String) :
    Except String (List (String × FlagVal)) := do
  let parts := pySplit item '=' 1
  let val ← pyIndex parts 1
  let key ← pyIndex parts 0
  let v : FlagVal := if pyContainsChar val ',' then .l (pySplitAll val ',') else .s val
  pure (setA output key v)

def process_twitch_flags (flags : String) : Except String (List (String × FlagVal)) :=
  (pySplitAll (flags.drop 1) ';').foldlM process_twitch_flags_item []

/-- The state of a `ChannelMessage` object: `args` is the base `Message.args`
field (the raw text handed to `Message.__init__`), `text` is the stripped
text (mutable — the dispatcher appends a space to single-word commands). -/
structure ChanMsg where
  args : String
  text : String
  user : String
  channel : String
  flags : List (String × FlagVal)
  outgoing : Bool
deriving Repr, DecidableEq

/-- `ChannelMessage.__init__(text, user, channel)`: `args` keeps the raw text,
`text` has `\r\n` removed, flags empty, `outgoing` false. -/
def ChannelMessage.make (text user channel : String) : ChanMsg :=
  { args := text, text := stripRN text, user := user, channel := channel,
    flags := [], outgoing := false }

/-- `ChannelMessage.__bytes__`: the wire line when `outgoing`, else empty. -/
def ChanMsg.toBytes (m : ChanMsg) : String :=
  if m.outgoing then "PRIVMSG #" ++ m.channel ++ " :" ++ m.text ++ "\r\n" else ""

/-- `ChannelMessage.reply(text)`: outgoing message to the same channel with the
placeholder user. -/
def ChanMsg.reply (m : ChanMsg) (text : String) : ChanMsg :=
  { ChannelMessage.make text "OUTGOING" m.channel with outgoing := true }

/-- Modelled from the spec: `PRIVMSG_PATTERN_TWITCH` is defined in a module of
this repository that is not under src/ (the package `__init__`).  Per the spec
(sections 4.2 and 6) it matches a `PRIVMSG` line carrying an IRCv3 tag prefix:
`@<tags> :<user>!<u>@<u>.tmi.twitch.tv PRIVMSG #<channel> :<text>`, capturing
(tags including the leading at-sign, user, channel, text); a line that does not
begin with the `@` tag prefix does not match. -/
def privmsg_pattern_twitch (line : String) : Option (String × String × String × String) :=
  if pyStartsWith line "@" then
    match pySplit line ' ' 1 with
    | [tags, rest] =>
      if pyStartsWith rest ":" then
        match pySplit (rest.drop 1) '!' 1 with
        | [user, rest2] =>
          match pySplit rest2 ' ' 1 with
          | [_hostpart, rest3] =>
            if pyStartsWith rest3 "PRIVMSG #" then
              match pySplit (rest3.drop 9) ' ' 1 with
              | [channel, rest4] =>
                if pyStartsWith rest4 ":" then some (tags, user, channel, rest4.drop 1)
                else none
              | _ => none
            else none
          | _ => none
        | _ => none
      else none
    | _ => none
  else none

/-- `ChannelMessage.from_match(m)`: build from the pattern's captures and parse
the tag flags. -/
def ChannelMessage.from_match (g : String × String × String × String) :
    Except String ChanMsg := do
  let fl ← process_twitch_flags g.1
  pure { ChannelMessage.make g.2.2.2 g.2.1 g.2.2.1 with flags := fl }

/-- `ChannelMessage.from_text(text)`: try the Twitch pattern, else the legacy
fallback parser, which strips `\r\n`, splits on spaces (maxsplit 3), requires
the second token to be `PRIVMSG` (raising otherwise), and slices user, channel
and text out of the remaining tokens. -/
def ChannelMessage.from_text (text : String) : Except String ChanMsg :=
  match privmsg_pattern_twitch text with
  | some g => ChannelMessage.from_match g
  | none =>
    let text1 := stripRN text
    let t := pySplit text1 ' ' 3
    do
      let t1 ← pyIndex t 1
      if t1 = "PRIVMSG" then do
        let t0 ← pyIndex t 0
        let u0 ← pyIndex (pySplit t0 '!' 1) 0
        let user := u0.drop 1
        let tch ← pyIndex t 2
        let channel := tch.drop 1
        let t3 ← pyIndex t 3
        let msg := t3.drop 1
        pure (ChannelMessage.make msg user channel)
      else
        .error "Invalid ChannelMessage(PRIVMSG)"

/-- The closed set of protocol event variants.  Fields mirror what each
`__init__` stores; `args`-style fields record the value that was passed to the
base `Message.__init__` at construction time (it is not recomputed when a
field is mutated afterwards, matching the Python object behaviour). -/
inductive IrcMessage where
  | raw (args : String) (outgoing : Bool)
  | chan (m : ChanMsg)
  | whisper (flags : List (String × FlagVal)) (user_from user_to text : String) (outgoing : Bool)
  | ping (host : Option String) (args : String) (outgoing : Bool)
  | pong (host : String) (outgoing : Bool)
  | notice (text : String) (message_id : Option FlagVal) (channel : Option String)
      (host : Option String) (args : String) (outgoing : Bool)
  | globalNotice (text : String) (host : Option String) (args : String) (outgoing : Bool)
  | join (user channel : String) (outgoing : Bool)
  | part (user channel : String) (outgoing : Bool)
  | usernotice (flags channel : String) (outgoing : Bool)
deriving Repr, DecidableEq

/-- The `Message.args` field of each variant (what `super().__init__` stored). -/
def IrcMessage.argsOf : IrcMessage → String
  | .raw a _ => a
  | .chan m => m.args
  | .whisper _ f t tx og => (if og then "Outgoing" else "") ++ " WHISPER from " ++ f ++ " to " ++ t ++ ": " ++ tx
  | .ping _ a _ => a
  | .pong h _ => h
  | .notice _ _ _ _ a _ => a
  | .globalNotice _ _ a _ => a
  | .join u ch _ => u ++ " JOIN " ++ ch
  | .part u ch _ => u ++ " PART " ++ ch
  | .usernotice f ch _ => f ++ " " ++ ch

def IrcMessage.outgoing : IrcMessage → Bool
  | .raw _ og => og
  | .chan m => m.outgoing
  | .whisper _ _ _ _ og => og
  | .ping _ _ og => og
  | .pong _ og => og
  | .notice _ _ _ _ _ og => og
  | .globalNotice _ _ _ og => og
  | .join _ _ og => og
  | .part _ _ og => og
  | .usernotice _ _ og => og

/-- The `Message._type` field: only `ChannelMessage` overrides the default. -/
def IrcMessage.mtype : IrcMessage → String
  | .chan _ => "PRIVMSG"
  | _ => "raw"

def IrcMessage.isPong : IrcMessage → Bool
  | .pong _ _ => true
  | _ => false

/-- `Message.__eq__`: same `_type` and same `args`. -/
def msgEq (a b : IrcMessage) : Bool :=
  (a.mtype == b.mtype) && (a.argsOf == b.argsOf)

/-- `__bytes__` of each variant.  `ChannelMessage`, `WhisperMessage`,
`JoinMessage` and `PongMessage` define their own; every other variant inherits
`Message.__bytes__` (the stored `args` when outgoing, else empty).
`PongMessage.__bytes__` is the one override with no `outgoing` guard. -/
def IrcMessage.toBytes : IrcMessage → String
  | .raw a og => if og then a else ""
  | .chan m => m.toBytes
  | .whisper _ _ user_to text og =>
      if og then "PRIVMSG #jtv :/w " ++ user_to ++ " " ++ text ++ "\r\n" else ""
  | .ping _ a og => if og then a else ""
  | .pong h _ => "PONG :" ++ h ++ "\r\n"
  | .notice _ _ _ _ a og => if og then a else ""
  | .globalNotice _ _ a og => if og then a else ""
  | .join _ channel og => if og then "JOIN " ++ channel ++ "\r\n" else ""
  | .part u ch og => if og then u ++ " PART " ++ ch else ""
  | .usernotice f ch og => if og then f ++ " " ++ ch else ""

/-- Modelled from the spec: `PING_MESSAGSE_PATTERN` is defined outside src/;
per the spec (section 6) a line `PING :<host>` parses to a Ping event whose
capture is the host. -/
def ping_pattern (line : String) : Option String :=
  if pyStartsWith line "PING :" then some (stripRN (line.drop 6)) else none

/-- `PingMessage.from_match(m)`: `PingMessage()` first runs `__init__` with
`host=None` — which stores `args = str(self) = 'PING :None'` — and only then
assigns `host` from the capture, so `args` stays `'PING :None'`. -/
def PingMessage.from_match (host : String) : IrcMessage :=
  .ping (some host) "PING :None" false

/-! ## Transport (`irclib/connection.py`) -/

/-- The argument of `Connection.send`: a raw string or a `ChannelMessage`. -/
inductive SendArg where
  | str (s : String)
  | chanMsg (m : ChanMsg)

/-- `to_bytes(obj)`: a string is encoded as-is; any other object goes through
its `__bytes__`. -/
def to_bytes : SendArg → String
  | .str s => s
  | .chanMsg m => m.toBytes

/-- `irclib.Connection` state.  `socket` is present/absent, `sent_lines` logs
every payload written to the socket. -/
structure Conn where
  message_cooldown : Int
  socket : Bool
  queue : List (String × List String)
  message_wait : List (String × Int)
  hold_send : Bool
  channels_connected : List String
  channels_to_remove : List String
  sent_lines : List String
deriving Repr, DecidableEq

/-- `Connection.__init__`: both maps start with the `misc` entry; `now` is the
`time.time()` sampled there. -/
def Conn.init (message_cooldown : Int) (now : Int) : Conn :=
  { message_cooldown := message_cooldown, socket := false,
    queue := [("misc", [])], message_wait := [("misc", now)],
    hold_send := false, channels_connected := [], channels_to_remove := [],
    sent_lines := [] }

/-- `Connection._send`: write to the socket if there is one, else do nothing. -/
def Conn._send (st : Conn) (m : String) : Conn :=
  if st.socket then { st with sent_lines := st.sent_lines ++ [m] } else st

/-- `Connection._connect`: open the socket. -/
def Conn._connect (st : Conn) : Conn := { st with socket := true }

/-- `Connection.disconnect`: send quit and drop the socket (AttributeError when
there is no socket). -/
def Conn.disconnect (st : Conn) : Conn × Except String Unit :=
  if st.socket then
    ({ st with sent_lines := st.sent_lines ++ ["quit\r\n"], socket := false }, .ok ())
  else (st, .error "AttributeError")

/-- `Connection.flush_single_queue(queue, no_cooldown=False, max_messages=1,
now=time.time())`: no-op returning 0 under `hold_send` or (without
`no_cooldown`) while the queue's earliest-send timestamp is in the future;
otherwise `_send` each of the first `max_messages` payloads, setting the
timestamp to `now + message_cooldown` on every loop iteration, then drop the
first `max_messages` payloads and return the count sent. -/
def Conn.flush_single_queue (st : Conn) (q : String) (no_cooldown : Bool)
    (max_messages : Nat) (now : Int) : Conn × Except String Nat :=
  if st.hold_send then (st, .ok 0)
  else
    match lookupA st.message_wait q with
    | none => (st, .error "KeyError")
    | some w =>
      if w > now ∧ no_cooldown = false then (st, .ok 0)
      else
        match lookupA st.queue q with
        | none => (st, .error "KeyError")
        | some msgs =>
          let toSend := msgs.take max_messages
          let st1 := toSend.foldl Conn._send st
          ({ st1 with
              message_wait :=
                if toSend.isEmpty then st1.message_wait
                else setA st1.message_wait q (now + st.message_cooldown),
              queue := setA st1.queue q (msgs.drop max_messages) },
           .ok toSend.length)

/-- `flush_single_queue` with its Python defaults.  The default of `now` is
`time.time()` evaluated ONCE when connection.py is imported: `loadTime` is that
frozen module-load snapshot, not the wall clock of the call. -/
def Conn.flush_single_queue_default (loadTime : Int) (st : Conn) (q : String)
    (no_cooldown : Bool) (max_messages : Nat) : Conn × Except String Nat :=
  st.flush_single_queue q no_cooldown max_messages loadTime

/-- `Connection.force_send(message)`: prepend to the `misc` queue and
immediately flush only that queue ignoring the cooldown (with the defaulted,
frozen `now`). -/
def Conn.force_send (loadTime : Int) (st : Conn) (m : String) : Conn × Except String Nat :=
  match lookupA st.queue "misc" with
  | none => (st, .error "KeyError")
  | some msgs =>
    Conn.flush_single_queue_default loadTime
      { st with queue := setA st.queue "misc" (m :: msgs) } "misc" true 1

/-- `Connection.join(channel)`: force-send the JOIN line, register an empty
queue and a cooldown timestamp for the channel, append to the joined list. -/
def Conn.join (loadTime now : Int) (st : Conn) (channel : String) :
    Conn × Except String Unit :=
  match Conn.force_send loadTime st ("join #" ++ channel ++ "\r\n") with
  | (st', .error e) => (st', .error e)
  | (st', .ok _) =>
    ({ st' with queue := setA st'.queue channel [],
                message_wait := setA st'.message_wait channel now,
                channels_connected := st'.channels_connected ++ [channel] }, .ok ())

/-- `Connection.part(channel)`: force-send the PART line and mark the channel
for (deferred) removal. -/
def Conn.part (loadTime : Int) (st : Conn) (channel : String) :
    Conn × Except String Unit :=
  match Conn.force_send loadTime st ("part #" ++ channel ++ "\r\n") with
  | (st', .error e) => (st', .error e)
  | (st', .ok _) =>
    ({ st' with channels_to_remove := st'.channels_to_remove ++ [channel] }, .ok ())

/-- `Connection.send(message, queue='misc')`: a `ChannelMessage` from the
script-replay sentinel user is logged and dropped; a `ChannelMessage`
overrides the queue name with its channel.  When connected or holding, create
the queue (and its cooldown entry, stamped with the current time) if missing
and append the serialized payload; otherwise log and drop. -/
def Conn.send (st : Conn) (message : SendArg) (queueArg : String) (now : Int) : Conn :=
  let qn : Option String :=
    match message with
    | .chanMsg m => if m.user = "rcfile" then none else some m.channel
    | .str _ => some queueArg
  match qn with
  | none => st
  | some q =>
    if st.socket || st.hold_send then
      let maps :=
        if (lookupA st.queue q).isSome then (st.queue, st.message_wait)
        else (setA st.queue q [], setA st.message_wait q now)
      { st with
          queue := setA maps.1 q (((lookupA maps.1 q).getD []) ++ [to_bytes message]),
          message_wait := maps.2 }
    else st

/-- The loop body of `Connection._remove_parted_channels`, iterating over a
copy of `channels_to_remove`: a channel whose queue is empty is removed from
the to-remove list and deleted from both maps; looking up a key that is no
longer in `self.queue` raises KeyError. -/
def Conn.remove_parted_go : List String → Conn → Conn × Except String Unit
  | [], st => (st, .ok ())
  | i :: rest, st =>
    match lookupA st.queue i with
    | none => (st, .error "KeyError")
    | some qi =>
      if qi.isEmpty then
        Conn.remove_parted_go rest
          { st with channels_to_remove := st.channels_to_remove.erase i,
                    message_wait := delA st.message_wait i,
                    queue := delA st.queue i }
      else Conn.remove_parted_go rest st

def Conn._remove_parted_channels (st : Conn) : Conn × Except String Unit :=
  Conn.remove_parted_go st.channels_to_remove st

/-- The loop of `Connection.flush_queue`: flush every queue name with the
shared `now`, summing the counts. -/
def Conn.flush_queue_go (mm : Nat) (now : Int) :
    List String → Conn → Nat → Conn × Except String Nat
  | [], st, acc => (st, .ok acc)
  | q :: rest, st, acc =>
    match st.flush_single_queue q false mm now with
    | (st', .ok n) => Conn.flush_queue_go mm now rest st' (acc + n)
    | (st', .error e) => (st', .error e)

def Conn.flush_queue (st : Conn) (mm : Nat) (now : Int) : Conn × Except String Nat :=
  if st.hold_send then (st, .ok 0)
  else Conn.flush_queue_go mm now (keysA st.queue) st 0

/-! ## Permissions and commands (`twitchirc/permission_names.py`,
`twitchirc/command.py`, `twitchirc/bot.py`) -/

def GLOBAL_BYPASS_PERMISSION : String := "twitchirc.bypass.permission"

/-- `LOCAL_BYPASS_PERMISSION_TEMPLATE.format(channel)`. -/
def LOCAL_BYPASS_PERMISSION (channel : String) : String :=
  "twitchirc.bypass.permission.local." ++ channel

/-- Modelled from the spec: `twitchirc.PermissionList` is defined in a module
of this repository that is not under src/ (bot.py only uses it).  Per the spec
(section 3) it is a mapping from user identifier to a set of permission
strings, queried through `get_permission_state`, which resolves the effective
permission set for the message's user. -/
structure PermissionList where
  entries : List (String × List String)
deriving Repr

/-- Modelled from the spec: Python `user in self.permissions`. -/
def PermissionList.has_user (pl : PermissionList) (u : String) : Bool :=
  (lookupA pl.entries u).isSome

/-- Modelled from the spec: the resolved permission set for the message's
user (empty for an unknown user). -/
def PermissionList.get_permission_state (pl : PermissionList) (m : ChanMsg) : List String :=
  (lookupA pl.entries m.user).getD []

/-- `twitchirc.Command`.  The source's field `forced_prefix` is named
`forced_pfx` here; `ef_command` is derived below as in `Command.__init__`. -/
structure Command where
  chat_command : String
  forced_pfx : Option String
  enable_local_bypass : Bool
  permissions_required : List String
  matcher_function : Option (ChanMsg → Bool)

instance : Inhabited Command := ⟨⟨"", none, true, [], none⟩⟩

/-- `self.ef_command = (forced_prefix + chat_command + ' ') if forced_prefix
is not None else chat_command + ' '`. -/
def Command.ef_command (c : Command) : String :=
  match c.forced_pfx with
  | some fp => fp ++ c.chat_command ++ " "
  | none => c.chat_command ++ " "

/-- `callable(handler.matcher_function) and handler.matcher_function(message,
handler)` — the second argument is the command itself, so the model closes
over it. -/
def Command.runMatcher (c : Command) (m : ChanMsg) : Bool :=
  match c.matcher_function with
  | some f => f m
  | none => false

/-- One entry of the handler-bus / callback log. -/
inductive BotEvent where
  | anyMsg (m : IrcMessage)
  | chatMsg (m : ChanMsg)
  | permissionError (m : ChanMsg) (c : Option Command) (missing : List String)
  | commandRun (c : Command) (m : ChanMsg)
  | warnUnknown (m : ChanMsg)
  | rcOut (line : String)

/-- `Bot.check_permissions_from_command(message, command)`: an unknown user is
missing the whole required list; otherwise the global bypass or (when the
command allows it) the channel-local bypass grants everything, else the
missing permissions are those required ones not in the resolved set.  A
non-empty missing list fires `permission_error` with the command. -/
def check_permissions_from_command (pl : PermissionList) (message : ChanMsg)
    (command : Command) : List String × List BotEvent :=
  let missing :=
    if pl.has_user message.user = false then command.permissions_required
    else
      let perms := pl.get_permission_state message
      if perms.contains GLOBAL_BYPASS_PERMISSION ||
         (command.enable_local_bypass &&
          perms.contains (LOCAL_BYPASS_PERMISSION message.channel)) then []
      else command.permissions_required.filter (fun p => !(perms.contains p))
  (missing, if missing.isEmpty then [] else [.permissionError message (some command) missing])

/-- `Bot.check_permissions(message, permissions, enable_local_bypass=True)`:
same check invoked directly; a failure fires `permission_error` with
command = None. -/
def check_permissions (pl : PermissionList) (message : ChanMsg)
    (permissions : List String) (enable_local_bypass : Bool) :
    List String × List BotEvent :=
  let missing :=
    if pl.has_user message.user = false then permissions
    else
      let perms := pl.get_permission_state message
      if perms.contains GLOBAL_BYPASS_PERMISSION ||
         (enable_local_bypass &&
          perms.contains (LOCAL_BYPASS_PERMISSION message.channel)) then []
      else permissions.filter (fun p => !(perms.contains p))
  (missing, if missing.isEmpty then [] else [.permissionError message none missing])

/-- `Command.__call__(message)`: with required permissions, gate on the check
and only call `self.function` when nothing is missing; the Bool records
whether the handler function ran. -/
def Command.call (pl : PermissionList) (c : Command) (m : ChanMsg) :
    Bool × List BotEvent :=
  if c.permissions_required.isEmpty then (true, [.commandRun c m])
  else
    let r := check_permissions_from_command pl m c
    if r.1.isEmpty then (true, r.2 ++ [.commandRun c m]) else (false, r.2)

/-! ## Command dispatch (`Bot._call_command_handlers`) -/

/-- `if ' ' not in message.text: message.text += ' '` (mutates only `text`,
not the stored `args`). -/
def adjust_text (m : ChanMsg) : ChanMsg :=
  if pyContainsChar m.text ' ' then m else { m with text := m.text ++ " " }

/-- The prefix-branch loop of `_call_command_handlers`: each registered
command (in registration order, position `i`) is invoked once if its matcher
accepts the message and, independently, once more if the text starts with
`prefix + ef_command`.  Returns the positions invoked, in call order. -/
def call_command_handlers_go (pref : String) (m : ChanMsg) :
    Nat → List Command → List Nat
  | _, [] => []
  | i, c :: rest =>
    ((if c.runMatcher m then [i] else []) ++
     (if pyStartsWith m.text (pref ++ c.ef_command) then [i] else [])) ++
    call_command_handlers_go pref m (i + 1) rest

/-- The loop of `Bot._call_forced_prefix_commands`: commands without a forced
prefix are skipped; one with a forced prefix is invoked when the raw text
starts with its `ef_command`. -/
def forced_pfx_commands_go (m : ChanMsg) : Nat → List Command → List Nat
  | _, [] => []
  | i, c :: rest =>
    (match c.forced_pfx with
     | none => []
     | some _ => if pyStartsWith m.text c.ef_command then [i] else []) ++
    forced_pfx_commands_go m (i + 1) rest

/-- `Bot._call_command_handlers(message)`, invocation structure only: when the
text starts with the active prefix, adjust the text and run the prefix-branch
loop (the Bool marks `not was_handled`, i.e. the unknown-command path);
otherwise run only the forced-prefix loop.  Returns (positions invoked, the
message as possibly mutated, unknown-command flag). -/
def call_command_handlers_indices (pref : String) (commands : List Command)
    (m : ChanMsg) : List Nat × ChanMsg × Bool :=
  if pyStartsWith m.text pref then
    let m' := adjust_text m
    let inv := call_command_handlers_go pref m' 0 commands
    (inv, m', inv.isEmpty)
  else
    (forced_pfx_commands_go m 0 commands, m, false)

/-! ## Bot state and main-loop message handling (`twitchirc/bot.py`) -/

structure BotState where
  conn : Conn
  pref : String
  commands : List Command
  permissions : PermissionList
  on_unknown_command : String
  in_rc_mode : Bool
  receive_queue : List IrcMessage
  events : List BotEvent

/-- `Bot.send`: in replay (rc) mode divert to the log sink, else queue on the
connection. -/
def Bot.send (bs : BotState) (message : SendArg) (q : String) (now : Int) : BotState :=
  if bs.in_rc_mode then
    { bs with events := bs.events ++ [.rcOut (to_bytes message)] }
  else { bs with conn := bs.conn.send message q now }

/-- `Bot._do_unknown_command(message)`: warn, reply in chat, ignore, or raise
on an invalid policy value.  (The chat reply's text models the f-string
without `repr` quoting.) -/
def Bot._do_unknown_command (now : Int) (bs : BotState) (m : ChanMsg) :
    BotState × Except String Unit :=
  if bs.on_unknown_command = "warn" then
    ({ bs with events := bs.events ++ [.warnUnknown m] }, .ok ())
  else if bs.on_unknown_command = "chat_message" then
    let msg := ChanMsg.reply m ("Unknown command " ++ ((pySplit m.text ' ' 1).headD ""))
    (Bot.send bs (.chanMsg msg) msg.channel now, .ok ())
  else if bs.on_unknown_command = "ignore" then (bs, .ok ())
  else (bs, .error "Invalid handler in on_unknown_command. Valid options: warn, chat_message, ignore.")

/-- Run one invoked command: `handler(message)` is `Command.__call__`, whose
permission events and (possible) handler run are appended to the log. -/
def Bot.apply_command (m : ChanMsg) (bs : BotState) (i : Nat) : BotState :=
  let c := bs.commands.getD i default
  let r := Command.call bs.permissions c m
  { bs with events := bs.events ++ r.2 }

/-- `Bot._call_command_handlers(message)` with effects: compute the invoked
positions, run each invocation in order, then the unknown-command policy when
nothing matched on the prefix branch. -/
def Bot._call_command_handlers (now : Int) (bs : BotState) (m : ChanMsg) :
    BotState × Except String Unit :=
  let r := call_command_handlers_indices bs.pref bs.commands m
  let bs1 := r.1.foldl (Bot.apply_command r.2.1) bs
  if r.2.2 then Bot._do_unknown_command now bs1 r.2.1 else (bs1, .ok ())

/-- `if i in self.receive_queue: self.receive_queue.remove(i)`: remove the
first element equal (by `Message.__eq__`) to `i`, if any. -/
def pyRemoveFirst : List IrcMessage → IrcMessage → List IrcMessage
  | [], _ => []
  | y :: rest, x => if msgEq y x then rest else y :: pyRemoveFirst rest x

/-- One iteration of the `_run_once` handler loop for message `i`: fire
`any_msg`; a Ping is answered with `force_send('PONG {host}\r\n')` and removed
from the queue; a ChannelMessage fires `chat_msg` and command dispatch; every
message is removed from the live receive queue afterwards. -/
def Bot.tick_message (loadTime now : Int) (bs : BotState) (i : IrcMessage) :
    BotState × Except String Unit :=
  let bs0 := { bs with events := bs.events ++ [BotEvent.anyMsg i] }
  match i with
  | .ping host _ _ =>
    match Conn.force_send loadTime bs0.conn ("PONG " ++ pyStrOfOptHost host ++ "\r\n") with
    | (c', .ok _) =>
      ({ bs0 with conn := c', receive_queue := pyRemoveFirst bs0.receive_queue i }, .ok ())
    | (c', .error e) => ({ bs0 with conn := c' }, .error e)
  | .chan m =>
    let bs1 := { bs0 with events := bs0.events ++ [BotEvent.chatMsg m] }
    match Bot._call_command_handlers now bs1 m with
    | (bs2, .ok _) =>
      ({ bs2 with receive_queue := pyRemoveFirst bs2.receive_queue i }, .ok ())
    | (bs2, .error e) => (bs2, .error e)
  | _ => ({ bs0 with receive_queue := pyRemoveFirst bs0.receive_queue i }, .ok ())

/-- The handler loop of `_run_once`, iterating over a copy of the receive
queue taken at loop start; an exception aborts the loop and propagates. -/
def Bot.run_once_go (loadTime now : Int) :
    List IrcMessage → BotState → BotState × Except String Unit
  | [], bs => (bs, .ok ())
  | i :: rest, bs =>
    match Bot.tick_message loadTime now bs i with
    | (bs', .ok _) => Bot.run_once_go loadTime now rest bs'
    | (bs', .error e) => (bs', .error e)

/-- `Bot._run_once` from the point where `receive()` and
`process_messages(100, mode=2)` have filled `receive_queue` (the socket read
itself is real I/O and is not embedded): run the handler loop, then return
False when no channels remain joined, else flush all queues (batch 100).  The
Bool is `_run_once`'s return value. -/
def Bot._run_once (loadTime now : Int) (bs : BotState) :
    BotState × Except String Unit × Bool :=
  match Bot.run_once_go loadTime now bs.receive_queue bs with
  | (bs', Except.error e) => (bs', Except.error e, true)
  | (bs', Except.ok _) =>
    if bs'.conn.channels_connected.isEmpty then (bs', Except.ok (), false)
    else
      match bs'.conn.flush_queue 100 now with
      | (c', Except.ok _) => ({ bs' with conn := c' }, Except.ok (), true)
      | (c', Except.error e) => ({ bs' with conn := c' }, Except.error e, true)

/-! ## Invariants and reachability for the connection state -/

/-- The key-set invariant of claim C9: the outbound-queue map and the
cooldown-timestamp map are defined on exactly the same queue names. -/
def sameKeys (st : Conn) : Prop :=
  ∀ k, (lookupA st.queue k).isSome ↔ (lookupA st.message_wait k).isSome

/-- Internal strengthening: the two maps share their key set and neither has a
duplicate key (as is automatic for Python dicts). -/
def ConnInv (st : Conn) : Prop :=
  sameKeys st ∧ (keysA st.queue).Nodup ∧ (keysA st.message_wait).Nodup

/-- Connection states reachable from `__init__` through the state-mutating
operations of connection.py.  `connect`/`_login`/`twitch_mode` are
compositions of `_connect` and `force_send` and are covered by those rules. -/
inductive ReachableConn : Conn → Prop where
  | init (cooldown now : Int) : ReachableConn (Conn.init cooldown now)
  | conn_open (st : Conn) (h : ReachableConn st) : ReachableConn st._connect
  | disconnect (st : Conn) (h : ReachableConn st) : ReachableConn (Conn.disconnect st).1
  | set_hold (st : Conn) (b : Bool) (h : ReachableConn st) :
      ReachableConn { st with hold_send := b }
  | force_send (lt : Int) (st : Conn) (m : String) (h : ReachableConn st) :
      ReachableConn (Conn.force_send lt st m).1
  | send (st : Conn) (msg : SendArg) (q : String) (now : Int) (h : ReachableConn st) :
      ReachableConn (Conn.send st msg q now)
  | join (lt now : Int) (st : Conn) (ch : String) (h : ReachableConn st) :
      ReachableConn (Conn.join lt now st ch).1
  | part (lt : Int) (st : Conn) (ch : String) (h : ReachableConn st) :
      ReachableConn (Conn.part lt st ch).1
  | flush_single (st : Conn) (q : String) (nc : Bool) (mm : Nat) (now : Int)
      (h : ReachableConn st) : ReachableConn (st.flush_single_queue q nc mm now).1
  | flush_queue (st : Conn) (mm : Nat) (now : Int) (h : ReachableConn st) :
      ReachableConn (st.flush_queue mm now).1
  | remove_parted (st : Conn) (h : ReachableConn st) :
      ReachableConn (Conn._remove_parted_channels st).1

/-- Preconditions under which one `_run_once` handler-loop tick runs without
raising: socket open, no send hold, the `misc` queue registered in both maps,
and a valid unknown-command policy. -/
def TickOK (bs : BotState) : Prop :=
  bs.conn.socket = true ∧ bs.conn.hold_send = false ∧
  (lookupA bs.conn.queue "misc").isSome = true ∧
  (lookupA bs.conn.message_wait "misc").isSome = true ∧
  (bs.on_unknown_command = "warn" ∨ bs.on_unknown_command = "chat_message" ∨
   bs.on_unknown_command = "ignore")

/-- What one handler-loop step preserves: socket and hold flags, presence of
the `misc` entries, the unknown-command policy, and every already-transmitted
line. -/
def TickPres (a b : BotState) : Prop :=
  b.conn.socket = a.conn.socket ∧ b.conn.hold_send = a.conn.hold_send ∧
  ((lookupA a.conn.queue "misc").isSome = true →
    (lookupA b.conn.queue "misc").isSome = true) ∧
  ((lookupA a.conn.message_wait "misc").isSome = true →
    (lookupA b.conn.message_wait "misc").isSome = true) ∧
  b.on_unknown_command = a.on_unknown_command ∧
  (∀ x ∈ a.conn.sent_lines, x ∈ b.conn.sent_lines)

/-! ## Concrete states used to settle the claims -/

/-- A connected state whose `misc` queue is empty and past its cooldown. -/
def c2state : Conn :=
  { message_cooldown := 3, socket := true, queue := [("misc", [])],
    message_wait := [("misc", 0)], hold_send := false, channels_connected := [],
    channels_to_remove := [], sent_lines := [] }

/-- A connected state with two payloads pending on `misc`. -/
def c2wstate : Conn :=
  { message_cooldown := 3, socket := true, queue := [("misc", ["a", "b"])],
    message_wait := [("misc", 0)], hold_send := false, channels_connected := [],
    channels_to_remove := [], sent_lines := [] }

/-- A connected state whose `misc` cooldown expires at time 5, with one
payload pending. -/
def c7state : Conn :=
  { message_cooldown := 3, socket := true, queue := [("misc", ["hello\r\n"])],
    message_wait := [("misc", 5)], hold_send := false, channels_connected := [],
    channels_to_remove := [], sent_lines := [] }

/-- Joined to `foo` with one payload pending there. -/
def c5state0 : Conn :=
  { message_cooldown := 3, socket := true,
    queue := [("misc", []), ("foo", ["PRIVMSG #foo :hi\r\n"])],
    message_wait := [("misc", 0), ("foo", 0)], hold_send := false,
    channels_connected := ["foo"], channels_to_remove := [], sent_lines := [] }

/-- After `part('foo')` called once... -/
def c5state1 : Conn := (Conn.part 0 c5state0 "foo").1

/-- ...and a second time, before the queue drained. -/
def c5state2 : Conn := (Conn.part 0 c5state1 "foo").1

/-- After the `foo` queue drains. -/
def c5state3 : Conn := (c5state2.flush_single_queue "foo" false 1 5).1

def c1pl : PermissionList := ⟨[]⟩

def c1cmd : Command := ⟨"quit", none, true, ["x.quit"], none⟩

def c1msg : ChanMsg := ChannelMessage.make "!quit" "alice" "foo"

/-- A command with forced prefix `!` while the bot's active prefix is also
`!`. -/
def c3cmd : Command := ⟨"x", some "!", true, [], none⟩

def c3msg : ChanMsg := ChannelMessage.make "!x hi" "alice" "foo"

/-- A command whose matcher accepts `!x ...` and whose name also matches the
prefix pattern for the same text. -/
def c10cmd : Command := ⟨"x", none, true, [], some (fun m => pyStartsWith m.text "!x")⟩

/-- A bot state one tick after an incoming `PING :tmi.twitch.tv` was parsed
into the receive queue. -/
def c8bot : BotState :=
  { conn := { message_cooldown := 3, socket := true, queue := [("misc", [])],
              message_wait := [("misc", 0)], hold_send := false,
              channels_connected := ["foo"], channels_to_remove := [],
              sent_lines := [] },
    pref := "!", commands := [], permissions := ⟨[]⟩,
    on_unknown_command := "ignore", in_rc_mode := false,
    receive_queue := [PingMessage.from_match "tmi.twitch.tv"], events := [] }

/-- Decidable equality for `Except` results (needed to evaluate the model on
concrete inputs). -/
instance {ε α : Type} [DecidableEq ε] [DecidableEq α] : DecidableEq (Except ε α) := fun x y =>
  match x, y with
  | .ok a, .ok b =>
    if h : a = b then isTrue (congrArg Except.ok h)
    else isFalse (fun he => h (Except.ok.inj he))
  | .error a, .error b =>
    if h : a = b then isTrue (congrArg Except.error h)
    else isFalse (fun he => h (Except.error.inj he))
  | .ok _, .error _ => isFalse (fun he => Except.noConfusion he)
  | .error _, .ok _ => isFalse (fun he => Except.noConfusion he)

/-! ## Shared lemmas on the association-list dict model -/

theorem lookupA_setA {β : Type} (l : List (String × β)) (k k' : String) (v : β) :
    lookupA (setA l k v) k' = if k = k' then some v else lookupA l k' := by
  induction l with
  | nil => by_cases h : k = k' <;> simp [setA, lookupA, h]
  | cons p rest ih =>
    obtain ⟨k0, v0⟩ := p
    by_cases h0 : k0 = k
    · subst h0
      by_cases h : k0 = k' <;> simp [setA, lookupA, h]
    · by_cases h : k0 = k'
      · subst h
        have hkk : ¬ k = k0 := fun he => h0 he.symm
        simp [setA, lookupA, h0, hkk]
      · simp [setA, lookupA, h0, h, ih]

theorem lookupA_delA_ne {β : Type} (l : List (String × β)) (k k' : String)
    (h : k ≠ k') : lookupA (delA l k) k' = lookupA l k' := by
  induction l with
  | nil => simp [delA]
  | cons p rest ih =>
    obtain ⟨k0, v0⟩ := p
    by_cases h0 : k0 = k
    · subst h0
      simp [delA, lookupA, h]
    · simp [delA, lookupA, h0, ih]

theorem mem_keysA {β : Type} (l : List (String × β)) (k : String) :
    k ∈ keysA l ↔ (lookupA l k).isSome := by
  induction l with
  | nil => simp [keysA, lookupA]
  | cons p rest ih =>
    obtain ⟨k0, v0⟩ := p
    by_cases h0 : k0 = k
    · subst h0; simp [keysA, lookupA]
    · simp [keysA, lookupA, h0, Ne.symm h0] at ih ⊢
      exact ih

theorem lookupA_eq_none_of_not_mem {β : Type} (l : List (String × β)) (k : String)
    (h : k ∉ keysA l) : lookupA l k = none := by
  have := (mem_keysA l k).not.mp h
  cases hl : lookupA l k with
  | none => rfl
  | some v => rw [hl] at this; simp at this

theorem lookupA_delA_self {β : Type} (l : List (String × β)) (k : String)
    (hnd : (keysA l).Nodup) : lookupA (delA l k) k = none := by
  induction l with
  | nil => simp [delA, lookupA]
  | cons p rest ih =>
    obtain ⟨k0, v0⟩ := p
    simp only [keysA, List.map_cons, List.nodup_cons] at hnd
    by_cases h0 : k0 = k
    · subst h0
      simp only [delA, if_pos rfl]
      exact lookupA_eq_none_of_not_mem rest k0 hnd.1
    · simp [delA, lookupA, h0]
      exact ih hnd.2

theorem keysA_setA {β : Type} (l : List (String × β)) (k : String) (v : β) :
    keysA (setA l k v) = if k ∈ keysA l then keysA l else keysA l ++ [k] := by
  induction l with
  | nil => simp [setA, keysA]
  | cons p rest ih =>
    obtain ⟨k0, v0⟩ := p
    by_cases h0 : k0 = k
    · subst h0; simp [setA, keysA]
    · have hcons : setA ((k0, v0) :: rest) k v = (k0, v0) :: setA rest k v := by
        simp [setA, h0]
      rw [hcons]
      show k0 :: keysA (setA rest k v) = _
      rw [ih]
      have hk : ¬ k = k0 := fun h => h0 h.symm
      by_cases hm : k ∈ List.map Prod.fst rest
      · simp [keysA, List.mem_cons, hm, hk]
      · simp [keysA, List.mem_cons, hm, hk]

theorem nodup_keysA_setA {β : Type} (l : List (String × β)) (k : String) (v : β)
    (hnd : (keysA l).Nodup) : (keysA (setA l k v)).Nodup := by
  rw [keysA_setA]
  by_cases hm : k ∈ keysA l
  · simpa [hm] using hnd
  · simp only [hm, if_false]
    refine List.Nodup.append hnd (List.nodup_singleton k) ?_
    intro a ha hb
    rw [List.mem_singleton] at hb
    subst hb
    exact hm ha

theorem delA_sublist {β : Type} (l : List (String × β)) (k : String) :
    List.Sublist (delA l k) l := by
  induction l with
  | nil => simp [delA]
  | cons p rest ih =>
    obtain ⟨k0, v0⟩ := p
    by_cases h0 : k0 = k
    · simp only [delA, if_pos h0]
      exact List.sublist_cons_self (k0, v0) rest
    · simp only [delA, if_neg h0]
      exact List.Sublist.cons₂ (k0, v0) ih

theorem nodup_keysA_delA {β : Type} (l : List (String × β)) (k : String)
    (hnd : (keysA l).Nodup) : (keysA (delA l k)).Nodup :=
  List.Nodup.sublist (List.Sublist.map Prod.fst (delA_sublist l k)) hnd

/-! ## Lemmas on the transport operations -/

/-- Folding `_send` over a payload list only extends the transmit log (by the
payloads themselves when there is a socket). -/
theorem foldl_send_eq (ms : List String) (st : Conn) :
    ms.foldl Conn._send st =
      { st with sent_lines := st.sent_lines ++ (if st.socket then ms else []) } := by
  induction ms generalizing st with
  | nil => simp
  | cons m rest ih =>
    simp only [List.foldl_cons]
    rw [ih]
    unfold Conn._send
    by_cases hs : st.socket
    · simp [hs]
    · simp [hs]

/-! ## C7 — the frozen default of flush_single_queue's `now` parameter -/

/-- C7: `flush_single_queue`'s `now` parameter defaults to `time.time()`
evaluated once at function-definition (module-load) time, so every call that
omits `now` compares the queue's earliest-send timestamp against the same
frozen snapshot `loadTime`, independent of the wall clock `callTime` at the
moment of the call — and this is observable: at `c7state` the defaulted call
(with the module loaded at time 0) refuses to send, while passing the actual
call time 10 would send. -/
theorem c7_frozen_default_now :
    (∀ (loadTime : Int) (st : Conn) (q : String) (nc : Bool) (mm : Nat)
       (callTime : Int),
        Conn.flush_single_queue_default loadTime st q nc mm =
          st.flush_single_queue q nc mm loadTime) ∧
    Conn.flush_single_queue_default 0 c7state "misc" false 1 ≠
      c7state.flush_single_queue "misc" false 1 10 := by
  constructor
  · intro loadTime st q nc mm callTime
    rfl
  · decide

/-! ## C5 — double `part` before the queue drains -/

/-- C5 (code bug): after `part('foo')` is called twice while the `foo` queue
is non-empty, the first processing step after the queue drains does not remove
the channel exactly once without raising — `_remove_parted_channels` removes
the channel on the first of the two to-remove entries and then raises KeyError
on the duplicate entry. -/
theorem c5_double_part_keyerror :
    c5state3.channels_to_remove = ["foo", "foo"] ∧
    (Conn._remove_parted_channels c5state3).2 = Except.error "KeyError" ∧
    lookupA (Conn._remove_parted_channels c5state3).1.queue "foo" = none ∧
    lookupA (Conn._remove_parted_channels c5state3).1.message_wait "foo" = none := by
  refine ⟨by decide, by decide, by decide, by decide⟩

/-! ## C4 — serialization of non-outgoing events -/

/-- C4 (counterexample): a Pong event with `outgoing = false` does not
serialize to the empty payload — `PongMessage.__bytes__` has no `outgoing`
guard. -/
theorem c4_counterexample :
    IrcMessage.outgoing (IrcMessage.pong "tmi.twitch.tv" false) = false ∧
    IrcMessage.toBytes (IrcMessage.pong "tmi.twitch.tv" false) ≠ "" := by
  refine ⟨rfl, by decide⟩

/-- C4 (amended): every protocol event variant except Pong serializes to the
empty payload when its `outgoing` flag is false; a Pong instance serializes to
`PONG :<host>\r\n` regardless of the flag. -/
theorem c4_serialize_nonoutgoing :
    (∀ m : IrcMessage, IrcMessage.outgoing m = false → IrcMessage.isPong m = false →
       IrcMessage.toBytes m = "") ∧
    (∀ (h : String) (og : Bool),
       IrcMessage.toBytes (IrcMessage.pong h og) = "PONG :" ++ h ++ "\r\n") := by
  constructor
  · intro m hog hpong
    cases m with
    | chan m =>
      simp only [IrcMessage.outgoing] at hog
      simp [IrcMessage.toBytes, ChanMsg.toBytes, hog]
    | pong h og => simp [IrcMessage.isPong] at hpong
    | raw a og => simp only [IrcMessage.outgoing] at hog; simp [IrcMessage.toBytes, hog]
    | whisper fl f t tx og =>
      simp only [IrcMessage.outgoing] at hog; simp [IrcMessage.toBytes, hog]
    | ping h a og => simp only [IrcMessage.outgoing] at hog; simp [IrcMessage.toBytes, hog]
    | notice t mi ch h a og =>
      simp only [IrcMessage.outgoing] at hog; simp [IrcMessage.toBytes, hog]
    | globalNotice t h a og =>
      simp only [IrcMessage.outgoing] at hog; simp [IrcMessage.toBytes, hog]
    | join u ch og => simp only [IrcMessage.outgoing] at hog; simp [IrcMessage.toBytes, hog]
    | part u ch og => simp only [IrcMessage.outgoing] at hog; simp [IrcMessage.toBytes, hog]
    | usernotice f ch og =>
      simp only [IrcMessage.outgoing] at hog; simp [IrcMessage.toBytes, hog]
  · intro h og
    rfl

/-- C4 witness: the amended theorem applied to a concrete non-outgoing Raw
event and a concrete Pong. -/
theorem c4_serialize_nonoutgoing_witness :
    IrcMessage.toBytes (IrcMessage.raw "x" false) = "" ∧
    IrcMessage.toBytes (IrcMessage.pong "h" false) = "PONG :h\r\n" :=
  ⟨c4_serialize_nonoutgoing.1 (IrcMessage.raw "x" false) rfl rfl,
   c4_serialize_nonoutgoing.2 "h" false⟩

/-! ## C2 — flush_single_queue -/

/-- C2 (counterexample): at `c2state` the `misc` queue is empty, send-hold is
off and the cooldown has passed at `now = 5`, so the claim's "otherwise"
branch applies; the call returns 0 as claimed but does NOT advance the
queue's cooldown timestamp to `now + message_cooldown = 8` — the timestamp is
written only inside the per-message loop, which never runs on an empty
queue. -/
theorem c2_counterexample :
    c2state.hold_send = false ∧
    lookupA c2state.message_wait "misc" = some 0 ∧
    lookupA c2state.queue "misc" = some [] ∧
    (c2state.flush_single_queue "misc" false 1 5).2 = Except.ok 0 ∧
    lookupA (c2state.flush_single_queue "misc" false 1 5).1.message_wait "misc" =
      some 0 ∧
    (5 : Int) + c2state.message_cooldown ≠ 0 := by
  refine ⟨rfl, by decide, by decide, by decide, by decide, by decide⟩

/-- C2 (amended): for every queue name registered in both the queue map and
the cooldown map, `flush_single_queue(queue, no_cooldown, max_messages, now)`
returns 0 and leaves the state unchanged when send-hold is set, or when
`no_cooldown` is false and `now` is before the queue's earliest-send
timestamp; otherwise it sends (via `_send`, hence onto the wire only while the
socket is open) the first `max_messages` payloads of the queue in order,
removes exactly those payloads, returns their number, leaves every other
queue's entries untouched, and advances this queue's cooldown timestamp to
`now + message_cooldown` once per call — provided at least one payload was
sent; when no payload was sent (empty queue or `max_messages = 0`) the
timestamp is unchanged. -/
theorem c2_flush_single_queue (st : Conn) (q : String) (nc : Bool)
    (mm : Nat) (now : Int) (w : Int) (msgs : List String)
    (hw : lookupA st.message_wait q = some w)
    (hq : lookupA st.queue q = some msgs) :
    ((st.hold_send = true ∨ (nc = false ∧ w > now)) →
        st.flush_single_queue q nc mm now = (st, Except.ok 0)) ∧
    (st.hold_send = false → (nc = true ∨ w ≤ now) →
        (st.flush_single_queue q nc mm now).2 = Except.ok (msgs.take mm).length ∧
        (st.flush_single_queue q nc mm now).1.sent_lines =
          st.sent_lines ++ (if st.socket then msgs.take mm else []) ∧
        lookupA (st.flush_single_queue q nc mm now).1.queue q =
          some (msgs.drop mm) ∧
        lookupA (st.flush_single_queue q nc mm now).1.message_wait q =
          some (if (msgs.take mm).isEmpty then w else now + st.message_cooldown) ∧
        (∀ k, k ≠ q →
          lookupA (st.flush_single_queue q nc mm now).1.queue k =
            lookupA st.queue k ∧
          lookupA (st.flush_single_queue q nc mm now).1.message_wait k =
            lookupA st.message_wait k)) := by
  constructor
  · rintro (hh | ⟨hnc, hwn⟩)
    · simp [Conn.flush_single_queue, hh]
    · by_cases hh : st.hold_send
      · simp [Conn.flush_single_queue, hh]
      · have hcnd : w > now ∧ nc = false := ⟨hwn, hnc⟩
        simp [Conn.flush_single_queue, hh, hw, hcnd]
  · intro hh hcond
    have hcnd : ¬ (w > now ∧ nc = false) := by
      rcases hcond with h1 | h1
      · rintro ⟨_, h2⟩
        rw [h1] at h2
        cases h2
      · rintro ⟨h2, _⟩
        omega
    have hflush : st.flush_single_queue q nc mm now =
        ({ (msgs.take mm).foldl Conn._send st with
            message_wait :=
              if (msgs.take mm).isEmpty then
                ((msgs.take mm).foldl Conn._send st).message_wait
              else setA ((msgs.take mm).foldl Conn._send st).message_wait q
                (now + st.message_cooldown),
            queue := setA ((msgs.take mm).foldl Conn._send st).queue q
              (msgs.drop mm) },
         Except.ok (msgs.take mm).length) := by
      simp [Conn.flush_single_queue, hh, hw, hq, hcnd]
    rw [hflush]
    rw [foldl_send_eq]
    refine ⟨rfl, rfl, ?_, ?_, ?_⟩
    · simp [lookupA_setA]
    · by_cases he : (msgs.take mm).isEmpty
      · simp [he, hw]
      · simp [he, lookupA_setA]
    · intro k hk
      have hkq : ¬ q = k := fun h => hk h.symm
      constructor
      · simp [lookupA_setA, hkq]
      · by_cases he : (msgs.take mm).isEmpty
        · simp [he]
        · simp [he, lookupA_setA, hkq]

/-- C2 witness: the amended theorem at a concrete state with two pending
payloads, cooldown passed: one payload sent, timestamp advanced to 5+3=8,
queue reduced to the remaining payload. -/
theorem c2_flush_single_queue_witness :
    (c2wstate.flush_single_queue "misc" false 1 5).2 = Except.ok 1 ∧
    lookupA (c2wstate.flush_single_queue "misc" false 1 5).1.message_wait "misc" =
      some 8 ∧
    lookupA (c2wstate.flush_single_queue "misc" false 1 5).1.queue "misc" =
      some ["b"] := by
  have h := c2_flush_single_queue c2wstate "misc" false 1 5 0 ["a", "b"] rfl rfl
  have h2 := h.2 rfl (Or.inr (by decide))
  refine ⟨h2.1, ?_, ?_⟩
  · have := h2.2.2.2.1
    simpa using this
  · have := h2.2.2.1
    simpa using this

/-! ## C1 — the permission gate on command invocation -/

/-- C1: for every chat message and every command with a non-empty
required-permission list, `Command.__call__` runs the handler function iff the
user's resolved permission set contains the global bypass permission, or (when
the command has `enable_local_bypass`) the per-channel bypass permission for
the message's channel, or every required permission; when any required
permission is missing the handler is not called,
`check_permissions_from_command` returns the non-empty missing list (no path
raises), and the `permission_error` handler bus fires with (message, the
command, the missing list). -/
theorem c1_permission_gate (pl : PermissionList) (m : ChanMsg) (c : Command)
    (hreq : c.permissions_required ≠ []) :
    ((Command.call pl c m).1 = true ↔
      ((pl.get_permission_state m).contains GLOBAL_BYPASS_PERMISSION = true ∨
       (c.enable_local_bypass = true ∧
         (pl.get_permission_state m).contains
           (LOCAL_BYPASS_PERMISSION m.channel) = true) ∨
       (∀ p ∈ c.permissions_required, p ∈ pl.get_permission_state m))) ∧
    ((Command.call pl c m).1 = false →
      (check_permissions_from_command pl m c).1 ≠ [] ∧
      (check_permissions_from_command pl m c).2 =
        [BotEvent.permissionError m (some c)
          (check_permissions_from_command pl m c).1]) := by
  have hie : c.permissions_required.isEmpty = false := by
    cases hreqc : c.permissions_required with
    | nil => exact absurd hreqc hreq
    | cons a l => rfl
  have key : (Command.call pl c m).1 = true ↔
      (check_permissions_from_command pl m c).1 = [] := by
    unfold Command.call
    rw [hie]
    simp only [Bool.false_eq_true, if_false]
    by_cases hr : (check_permissions_from_command pl m c).1.isEmpty = true
    · simp [hr, List.isEmpty_iff.mp hr]
    · have hne : (check_permissions_from_command pl m c).1 ≠ [] :=
        fun hc => hr (List.isEmpty_iff.mpr hc)
      simp [hr, hne]
  have hsplit : (check_permissions_from_command pl m c).2 =
      if (check_permissions_from_command pl m c).1.isEmpty then []
      else [BotEvent.permissionError m (some c)
        (check_permissions_from_command pl m c).1] := rfl
  refine ⟨?_, ?_⟩
  · cases hu : pl.has_user m.user with
    | false =>
      have hperms : pl.get_permission_state m = [] := by
        unfold PermissionList.has_user at hu
        unfold PermissionList.get_permission_state
        cases hl : lookupA pl.entries m.user with
        | none => simp
        | some v => rw [hl] at hu; simp at hu
      have hmiss : (check_permissions_from_command pl m c).1 =
          c.permissions_required := by
        simp [check_permissions_from_command, hu]
      rw [key, hmiss]
      constructor
      · intro hc; exact absurd hc hreq
      · rintro (hg | ⟨helb, hlo⟩ | hall)
        · rw [hperms] at hg; simp [List.contains] at hg
        · rw [hperms] at hlo; simp [List.contains] at hlo
        · obtain ⟨a, ha⟩ := List.exists_mem_of_ne_nil _ hreq
          have := hall a ha
          rw [hperms] at this
          simp at this
    | true =>
      by_cases hby : ((pl.get_permission_state m).contains GLOBAL_BYPASS_PERMISSION ||
          (c.enable_local_bypass &&
           (pl.get_permission_state m).contains
             (LOCAL_BYPASS_PERMISSION m.channel))) = true
      · have hmiss : (check_permissions_from_command pl m c).1 = [] := by
          simp only [check_permissions_from_command, hu, Bool.true_eq_false, if_false]
          rw [if_pos hby]
        rw [key, hmiss]
        simp only [true_iff]
        rcases Bool.or_eq_true_iff.mp hby with hg | hla
        · exact Or.inl hg
        · rcases Bool.and_eq_true_iff.mp hla with ⟨h1, h2⟩
          exact Or.inr (Or.inl ⟨h1, h2⟩)
      · have hmiss : (check_permissions_from_command pl m c).1 =
            c.permissions_required.filter
              (fun p => !((pl.get_permission_state m).contains p)) := by
          simp only [check_permissions_from_command, hu, Bool.true_eq_false, if_false]
          rw [if_neg hby]
        rw [key, hmiss]
        rw [List.filter_eq_nil_iff]
        constructor
        · intro hall
          refine Or.inr (Or.inr ?_)
          intro p hp
          have := hall p hp
          simp only [Bool.not_eq_true'] at this
          rw [Bool.not_eq_false] at this
          exact List.elem_iff.mp this
        · rintro (hg | ⟨helb, hlo⟩ | hall)
          · exact absurd (Bool.or_eq_true_iff.mpr (Or.inl hg)) hby
          · exact absurd
              (Bool.or_eq_true_iff.mpr
                (Or.inr (Bool.and_eq_true_iff.mpr ⟨helb, hlo⟩))) hby
          · intro p hp
            have hm2 : (pl.get_permission_state m).contains p = true :=
              List.elem_iff.mpr (hall p hp)
            simp only [Bool.not_eq_true', Bool.not_eq_false]
            simp [hm2, hall p hp]
  · intro hf
    have hne : (check_permissions_from_command pl m c).1 ≠ [] := by
      intro hc
      rw [key.mpr hc] at hf
      cases hf
    refine ⟨hne, ?_⟩
    rw [hsplit]
    rw [if_neg (by simpa [List.isEmpty_iff] using hne)]

/-- C1 witness: user `alice` has no permission entry and `quit` requires
`x.quit`: the handler does not run, the check returns `['x.quit']`, and
`permission_error` fires with the command and that list. -/
theorem c1_permission_gate_witness :
    (Command.call c1pl c1cmd c1msg).1 = false ∧
    (check_permissions_from_command c1pl c1msg c1cmd).1 ≠ [] ∧
    (check_permissions_from_command c1pl c1msg c1cmd).2 =
      [BotEvent.permissionError c1msg (some c1cmd)
        (check_permissions_from_command c1pl c1msg c1cmd).1] := by
  have h := c1_permission_gate c1pl c1msg c1cmd (by decide)
  have hf : (Command.call c1pl c1cmd c1msg).1 = false := by decide
  exact ⟨hf, (h.2 hf).1, (h.2 hf).2⟩

/-! ## Dispatch-loop counting lemmas (shared by C3 and C10) -/

theorem count_if_single (b : Bool) (i k : Nat) :
    (if b then [i] else []).count k = if b ∧ i = k then 1 else 0 := by
  by_cases hb : b
  · by_cases hik : i = k
    · simp [hb, hik]
    · simp [hb, hik, List.count_cons]
  · simp [hb]

theorem call_go_count_lt (pref : String) (m : ChanMsg) :
    ∀ (cs : List Command) (i0 k : Nat), k < i0 →
      (call_command_handlers_go pref m i0 cs).count k = 0 := by
  intro cs
  induction cs with
  | nil => intro i0 k hk; simp [call_command_handlers_go]
  | cons c rest ih =>
    intro i0 k hk
    have hik : ¬ i0 = k := fun h => absurd hk (by omega)
    simp only [call_command_handlers_go, List.count_append, count_if_single]
    rw [ih (i0 + 1) k (by omega)]
    simp [hik]

theorem call_go_count_get (pref : String) (m : ChanMsg) :
    ∀ (cs : List Command) (i0 j : Nat) (hj : j < cs.length),
      (call_command_handlers_go pref m i0 cs).count (i0 + j) =
        (if (cs.get ⟨j, hj⟩).runMatcher m then 1 else 0) +
        (if pyStartsWith m.text (pref ++ (cs.get ⟨j, hj⟩).ef_command) then 1 else 0) := by
  intro cs
  induction cs with
  | nil => intro i0 j hj; simp at hj
  | cons c rest ih =>
    intro i0 j hj
    cases j with
    | zero =>
      simp only [call_command_handlers_go, List.count_append, count_if_single,
        Nat.add_zero, List.get]
      rw [call_go_count_lt pref m rest (i0 + 1) i0 (by omega)]
      by_cases h1 : c.runMatcher m <;>
        by_cases h2 : pyStartsWith m.text (pref ++ c.ef_command) <;>
          simp [h1, h2]
    | succ j' =>
      have hj' : j' < rest.length := by simpa using hj
      have hne : ¬ i0 = i0 + (j' + 1) := by omega
      simp only [call_command_handlers_go, List.count_append, count_if_single,
        List.get]
      have harith : i0 + (j' + 1) = (i0 + 1) + j' := by omega
      rw [harith, ih (i0 + 1) j' hj']
      have hne2 : ¬ i0 = (i0 + 1) + j' := by omega
      simp [hne2]

theorem forced_go_count_lt (m : ChanMsg) :
    ∀ (cs : List Command) (i0 k : Nat), k < i0 →
      (forced_pfx_commands_go m i0 cs).count k = 0 := by
  intro cs
  induction cs with
  | nil => intro i0 k hk; simp [forced_pfx_commands_go]
  | cons c rest ih =>
    intro i0 k hk
    have hik : ¬ i0 = k := fun h => absurd hk (by omega)
    simp only [forced_pfx_commands_go, List.count_append]
    rw [ih (i0 + 1) k (by omega)]
    cases hfp : c.forced_pfx with
    | none => simp
    | some fp => simp [count_if_single, hik]

theorem forced_contrib_count (c : Command) (m : ChanMsg) (i k : Nat) :
    List.count k
      (match c.forced_pfx with
       | none => ([] : List Nat)
       | some _ => if pyStartsWith m.text c.ef_command then [i] else []) =
      if ((c.forced_pfx.isSome && pyStartsWith m.text c.ef_command) = true) ∧ i = k
      then 1 else 0 := by
  cases c.forced_pfx with
  | none => simp
  | some fp =>
    by_cases h2 : pyStartsWith m.text c.ef_command
    · by_cases hik : i = k
      · simp [h2, hik]
      · simp [h2, hik, List.count_cons]
    · simp [h2]

theorem forced_go_count_get (m : ChanMsg) :
    ∀ (cs : List Command) (i0 j : Nat) (hj : j < cs.length),
      (forced_pfx_commands_go m i0 cs).count (i0 + j) =
        if ((cs.get ⟨j, hj⟩).forced_pfx.isSome &&
            pyStartsWith m.text ((cs.get ⟨j, hj⟩).ef_command)) then 1 else 0 := by
  intro cs
  induction cs with
  | nil => intro i0 j hj; simp at hj
  | cons c rest ih =>
    intro i0 j hj
    cases j with
    | zero =>
      simp only [forced_pfx_commands_go, List.count_append, Nat.add_zero, List.get]
      rw [forced_go_count_lt m rest (i0 + 1) i0 (by omega)]
      rw [forced_contrib_count]
      simp
    | succ j' =>
      have hj' : j' < rest.length := by simpa using hj
      simp only [forced_pfx_commands_go, List.count_append, List.get]
      have harith : i0 + (j' + 1) = (i0 + 1) + j' := by omega
      rw [harith, ih (i0 + 1) j' hj']
      rw [forced_contrib_count]
      have hne : ¬ i0 = (i0 + 1) + j' := by omega
      simp [hne]

/-! ## C10 — double invocation through the matcher and prefix branches -/

/-- C10: when a message's text starts with the active prefix, a registered
command whose matcher accepts the (space-adjusted) message AND whose
prefix-pattern `prefix + ef_command` also matches is invoked exactly twice for
that single message — the matcher branch and the prefix branch each call the
handler independently. -/
theorem c10_double_invocation (pref : String) (cmds : List Command) (m : ChanMsg)
    (i : Nat) (hi : i < cmds.length)
    (hpre : pyStartsWith m.text pref = true)
    (hmatch : (cmds.get ⟨i, hi⟩).runMatcher (adjust_text m) = true)
    (hstart : pyStartsWith (adjust_text m).text
      (pref ++ (cmds.get ⟨i, hi⟩).ef_command) = true) :
    ((call_command_handlers_indices pref cmds m).1).count i = 2 := by
  unfold call_command_handlers_indices
  rw [hpre]
  simp only [if_true]
  have h := call_go_count_get pref (adjust_text m) cmds 0 i hi
  rw [Nat.zero_add] at h
  rw [h, hmatch, hstart]
  simp

/-- C10 witness: prefix `!`, command `x` with a matcher accepting texts
starting with `!x`; the message `!x hi` triggers both branches: two
invocations. -/
theorem c10_double_invocation_witness :
    pyStartsWith c3msg.text "!" = true ∧
    Command.runMatcher c10cmd (adjust_text c3msg) = true ∧
    pyStartsWith (adjust_text c3msg).text ("!" ++ Command.ef_command c10cmd) = true ∧
    ((call_command_handlers_indices "!" [c10cmd] c3msg).1).count 0 = 2 := by
  refine ⟨by decide, by decide, by decide, ?_⟩
  exact c10_double_invocation "!" [c10cmd] c3msg 0 (by decide) (by decide) (by decide)
    (by decide)

/-! ## C3 — forced-prefix commands and the active prefix -/

/-- C3 (counterexample): with active prefix `!`, the command `x` with forced
prefix `!` would match the raw text `!x hi` (the text starts with its
`ef_command` `!x `), yet `_call_command_handlers` never tries the
forced-prefix path because the text starts with the active prefix: no command
is invoked at all. -/
theorem c3_counterexample :
    c3cmd.forced_pfx.isSome = true ∧
    pyStartsWith c3msg.text "!" = true ∧
    pyStartsWith c3msg.text (Command.ef_command c3cmd) = true ∧
    (call_command_handlers_indices "!" [c3cmd] c3msg).1 = [] := by
  refine ⟨rfl, by decide, by decide, by decide⟩

/-- C3 (amended): forced-prefix commands are tried against the raw text only
when the message's text does NOT start with the bot's active general prefix;
in that case the dispatcher runs exactly the forced-prefix loop, and each
registered command is invoked exactly once iff it carries a forced prefix and
the raw text starts with its `ef_command`.  (When the text does start with
the active prefix, only the matcher/prefix-pattern branch runs — see the
counterexample.) -/
theorem c3_forced_prefix_dispatch (pref : String) (cmds : List Command)
    (m : ChanMsg) (hpre : pyStartsWith m.text pref = false) :
    (call_command_handlers_indices pref cmds m).1 =
      forced_pfx_commands_go m 0 cmds ∧
    (∀ (i : Nat) (hi : i < cmds.length),
      ((call_command_handlers_indices pref cmds m).1).count i =
        if ((cmds.get ⟨i, hi⟩).forced_pfx.isSome &&
            pyStartsWith m.text ((cmds.get ⟨i, hi⟩).ef_command)) then 1 else 0) := by
  have h1 : (call_command_handlers_indices pref cmds m).1 =
      forced_pfx_commands_go m 0 cmds := by
    unfold call_command_handlers_indices
    rw [hpre]
    simp
  refine ⟨h1, ?_⟩
  intro i hi
  rw [h1]
  have h := forced_go_count_get m cmds 0 i hi
  rw [Nat.zero_add] at h
  exact h

/-- C3 witness: with active prefix `$` the text `!x hi` does not start with
the prefix, so the forced-prefix loop runs and invokes the forced-prefix
command `!x` exactly once. -/
theorem c3_forced_prefix_dispatch_witness :
    pyStartsWith c3msg.text "$" = false ∧
    (call_command_handlers_indices "$" [c3cmd] c3msg).1 =
      forced_pfx_commands_go c3msg 0 [c3cmd] ∧
    ((call_command_handlers_indices "$" [c3cmd] c3msg).1).count 0 = 1 := by
  have h := c3_forced_prefix_dispatch "$" [c3cmd] c3msg (by decide)
  refine ⟨by decide, h.1, ?_⟩
  have h2 := h.2 0 (by decide)
  rw [h2]
  decide

/-! ## C9 — the queue map and the cooldown map share their key set -/

theorem connInv_of_fields (st st' : Conn) (hq : st'.queue = st.queue)
    (hw : st'.message_wait = st.message_wait) (h : ConnInv st) : ConnInv st' := by
  obtain ⟨h1, h2, h3⟩ := h
  refine ⟨fun k => ?_, ?_, ?_⟩
  · rw [hq, hw]; exact h1 k
  · rw [hq]; exact h2
  · rw [hw]; exact h3

theorem connInv_init (c n : Int) : ConnInv (Conn.init c n) := by
  refine ⟨fun k => ?_, ?_, ?_⟩
  · by_cases h : "misc" = k <;> simp [Conn.init, lookupA, h]
  · simp [Conn.init, keysA]
  · simp [Conn.init, keysA]

theorem connInv_setA_pair (st : Conn) (q : String) (qv : List String) (wv : Int)
    (h : ConnInv st) :
    ConnInv { st with queue := setA st.queue q qv,
                      message_wait := setA st.message_wait q wv } := by
  obtain ⟨h1, h2, h3⟩ := h
  refine ⟨fun k => ?_, nodup_keysA_setA _ _ _ h2, nodup_keysA_setA _ _ _ h3⟩
  by_cases hk : q = k
  · simp [lookupA_setA, hk]
  · simp only [lookupA_setA, hk, if_false]
    exact h1 k

theorem connInv_setA_queue_present (st : Conn) (q : String) (qv : List String)
    (hq : (lookupA st.queue q).isSome) (h : ConnInv st) :
    ConnInv { st with queue := setA st.queue q qv } := by
  obtain ⟨h1, h2, h3⟩ := h
  refine ⟨fun k => ?_, nodup_keysA_setA _ _ _ h2, h3⟩
  by_cases hk : q = k
  · subst hk
    simp only [lookupA_setA, eq_self_iff_true, if_true, Option.isSome_some, true_iff]
    exact (h1 q).mp hq
  · simp only [lookupA_setA, hk, if_false]
    exact h1 k

theorem foldl_send_queue (ms : List String) (st : Conn) :
    (ms.foldl Conn._send st).queue = st.queue := by rw [foldl_send_eq]

theorem foldl_send_wait (ms : List String) (st : Conn) :
    (ms.foldl Conn._send st).message_wait = st.message_wait := by rw [foldl_send_eq]

/-- The positive branch of `flush_single_queue`, in closed form. -/
theorem flush_single_queue_eq (st : Conn) (q : String) (nc : Bool) (mm : Nat)
    (now : Int) (w : Int) (msgs : List String) (hh : st.hold_send = false)
    (hw : lookupA st.message_wait q = some w) (hq : lookupA st.queue q = some msgs)
    (hcnd : ¬ (w > now ∧ nc = false)) :
    st.flush_single_queue q nc mm now =
      ({ st with
          sent_lines := st.sent_lines ++ (if st.socket then msgs.take mm else []),
          message_wait :=
            if (msgs.take mm).isEmpty then st.message_wait
            else setA st.message_wait q (now + st.message_cooldown),
          queue := setA st.queue q (msgs.drop mm) },
       Except.ok (msgs.take mm).length) := by
  have h1 : st.flush_single_queue q nc mm now =
      ({ (msgs.take mm).foldl Conn._send st with
          message_wait :=
            if (msgs.take mm).isEmpty then
              ((msgs.take mm).foldl Conn._send st).message_wait
            else setA ((msgs.take mm).foldl Conn._send st).message_wait q
              (now + st.message_cooldown),
          queue := setA ((msgs.take mm).foldl Conn._send st).queue q
            (msgs.drop mm) },
       Except.ok (msgs.take mm).length) := by
    simp [Conn.flush_single_queue, hh, hw, hq, hcnd]
  rw [h1, foldl_send_eq]

theorem connInv_flush_single (st : Conn) (q : String) (nc : Bool) (mm : Nat)
    (now : Int) (h : ConnInv st) :
    ConnInv (st.flush_single_queue q nc mm now).1 := by
  by_cases hh : st.hold_send
  · have he : (st.flush_single_queue q nc mm now).1 = st := by
      simp [Conn.flush_single_queue, hh]
    rwa [he]
  · rw [Bool.not_eq_true] at hh
    cases hw : lookupA st.message_wait q with
    | none =>
      have he : (st.flush_single_queue q nc mm now).1 = st := by
        simp [Conn.flush_single_queue, hh, hw]
      rwa [he]
    | some w =>
      by_cases hcnd : (w > now ∧ nc = false)
      · have he : (st.flush_single_queue q nc mm now).1 = st := by
          simp [Conn.flush_single_queue, hh, hw, hcnd]
        rwa [he]
      · cases hq : lookupA st.queue q with
        | none =>
          have he : (st.flush_single_queue q nc mm now).1 = st := by
            simp [Conn.flush_single_queue, hh, hw, hcnd, hq]
          rwa [he]
        | some msgs =>
          rw [flush_single_queue_eq st q nc mm now w msgs hh hw hq hcnd]
          obtain ⟨h1, h2, h3⟩ := h
          have hqs : (lookupA st.queue q).isSome := by rw [hq]; rfl
          have hws : (lookupA st.message_wait q).isSome := by rw [hw]; rfl
          by_cases he : (msgs.take mm).isEmpty
          · simp only [he, eq_self_iff_true, if_true]
            refine ⟨fun k => ?_, nodup_keysA_setA _ _ _ h2, h3⟩
            by_cases hk : q = k
            · subst hk
              simp only [lookupA_setA, eq_self_iff_true, if_true,
                Option.isSome_some, true_iff]
              exact (h1 q).mp hqs
            · simp only [lookupA_setA, hk, if_false]
              exact h1 k
          · simp only [he, Bool.false_eq_true, if_false]
            refine ⟨fun k => ?_, nodup_keysA_setA _ _ _ h2,
              nodup_keysA_setA _ _ _ h3⟩
            by_cases hk : q = k
            · simp [lookupA_setA, hk]
            · simp only [lookupA_setA, hk, if_false]
              exact h1 k

theorem connInv_force_send (lt : Int) (st : Conn) (m : String) (h : ConnInv st) :
    ConnInv (Conn.force_send lt st m).1 := by
  unfold Conn.force_send
  cases hq : lookupA st.queue "misc" with
  | none => simpa using h
  | some msgs =>
    unfold Conn.flush_single_queue_default
    apply connInv_flush_single
    apply connInv_setA_queue_present
    · rw [hq]; rfl
    · exact h

theorem connInv_join (lt now : Int) (st : Conn) (ch : String) (h : ConnInv st) :
    ConnInv (Conn.join lt now st ch).1 := by
  unfold Conn.join
  cases hf : Conn.force_send lt st ("join #" ++ ch ++ "\r\n") with
  | mk st' r =>
    have h' : ConnInv st' := by
      have := connInv_force_send lt st ("join #" ++ ch ++ "\r\n") h
      rwa [hf] at this
    cases r with
    | error e => simpa using h'
    | ok n =>
      simp only []
      exact connInv_of_fields _ _ rfl rfl (connInv_setA_pair st' ch [] now h')

theorem connInv_part (lt : Int) (st : Conn) (ch : String) (h : ConnInv st) :
    ConnInv (Conn.part lt st ch).1 := by
  unfold Conn.part
  cases hf : Conn.force_send lt st ("part #" ++ ch ++ "\r\n") with
  | mk st' r =>
    have h' : ConnInv st' := by
      have := connInv_force_send lt st ("part #" ++ ch ++ "\r\n") h
      rwa [hf] at this
    cases r with
    | error e => simpa using h'
    | ok n => exact connInv_of_fields _ _ rfl rfl h'

theorem connInv_send (st : Conn) (msg : SendArg) (qa : String) (now : Int)
    (h : ConnInv st) : ConnInv (Conn.send st msg qa now) := by
  unfold Conn.send
  have core : ∀ q : String,
      ConnInv (if st.socket || st.hold_send then
        { st with
            queue :=
              setA (if (lookupA st.queue q).isSome then (st.queue, st.message_wait)
                    else (setA st.queue q [], setA st.message_wait q now)).1 q
                (((lookupA (if (lookupA st.queue q).isSome then
                      (st.queue, st.message_wait)
                    else (setA st.queue q [], setA st.message_wait q now)).1 q).getD [])
                  ++ [to_bytes msg]),
            message_wait :=
              (if (lookupA st.queue q).isSome then (st.queue, st.message_wait)
               else (setA st.queue q [], setA st.message_wait q now)).2 }
        else st) := by
    intro q
    by_cases hs : (st.socket || st.hold_send) = true
    · rw [if_pos hs]
      by_cases hq : (lookupA st.queue q).isSome
      · simp only [hq, if_true]
        exact connInv_setA_queue_present st q _ hq h
      · simp only [hq, if_false]
        have hpair := connInv_setA_pair st q [] now h
        have hpres : (lookupA (setA st.queue q []) q).isSome := by
          simp [lookupA_setA]
        exact connInv_of_fields _ _ rfl rfl
          (connInv_setA_queue_present
            { st with queue := setA st.queue q [],
                      message_wait := setA st.message_wait q now } q _ hpres hpair)
    · rw [if_neg hs]; exact h
  cases msg with
  | chanMsg m =>
    by_cases hrc : m.user = "rcfile"
    · simp only [hrc, if_pos rfl]
      exact h
    · simp only [hrc, if_neg hrc]
      exact core m.channel
  | str s => exact core qa

theorem connInv_remove_go : ∀ (l : List String) (st : Conn), ConnInv st →
    ConnInv (Conn.remove_parted_go l st).1 := by
  intro l
  induction l with
  | nil => intro st h; simpa [Conn.remove_parted_go] using h
  | cons i rest ih =>
    intro st h
    unfold Conn.remove_parted_go
    cases hq : lookupA st.queue i with
    | none => simpa using h
    | some qi =>
      by_cases he : qi.isEmpty
      · simp only [he, if_true]
        apply ih
        obtain ⟨h1, h2, h3⟩ := h
        refine ⟨fun k => ?_, nodup_keysA_delA _ _ h2, nodup_keysA_delA _ _ h3⟩
        by_cases hk : i = k
        · subst hk
          rw [lookupA_delA_self _ _ h2, lookupA_delA_self _ _ h3]
          exact Iff.rfl
        · rw [lookupA_delA_ne _ _ _ hk, lookupA_delA_ne _ _ _ hk]
          exact h1 k
      · simp only [he, if_false]
        exact ih st h

theorem connInv_flush_queue_go : ∀ (l : List String) (mm : Nat) (now : Int)
    (st : Conn) (acc : Nat), ConnInv st →
    ConnInv (Conn.flush_queue_go mm now l st acc).1 := by
  intro l
  induction l with
  | nil => intro mm now st acc h; simpa [Conn.flush_queue_go] using h
  | cons q rest ih =>
    intro mm now st acc h
    unfold Conn.flush_queue_go
    cases hf : st.flush_single_queue q false mm now with
    | mk st' r =>
      have h' : ConnInv st' := by
        have := connInv_flush_single st q false mm now h
        rwa [hf] at this
      cases r with
      | ok n => exact ih mm now st' (acc + n) h'
      | error e => simpa using h'

theorem reachable_connInv (st : Conn) (h : ReachableConn st) : ConnInv st := by
  induction h with
  | init c n => exact connInv_init c n
  | conn_open st h ih => exact connInv_of_fields _ _ rfl rfl ih
  | disconnect st h ih =>
    unfold Conn.disconnect
    by_cases hs : st.socket
    · simp only [hs, if_true]
      exact connInv_of_fields _ _ rfl rfl ih
    · simp only [hs, if_false]
      exact ih
  | set_hold st b h ih => exact connInv_of_fields _ _ rfl rfl ih
  | force_send lt st m h ih => exact connInv_force_send lt st m ih
  | send st msg q now h ih => exact connInv_send st msg q now ih
  | join lt now st ch h ih => exact connInv_join lt now st ch ih
  | part lt st ch h ih => exact connInv_part lt st ch ih
  | flush_single st q nc mm now h ih => exact connInv_flush_single st q nc mm now ih
  | flush_queue st mm now h ih =>
    unfold Conn.flush_queue
    by_cases hh : st.hold_send
    · simp only [hh, if_true]
      exact ih
    · simp only [hh, if_false]
      exact connInv_flush_queue_go (keysA st.queue) mm now st 0 ih
  | remove_parted st h ih => exact connInv_remove_go st.channels_to_remove st ih

/-- C9: in every connection state reachable through the operations of
connection.py, the outbound-queue map and the cooldown-timestamp map have
exactly the same key set — `join` and `send`-to-a-new-queue add both entries
together, and the deferred removal of a parted channel (queue empty, marked
for departure) deletes both entries together. -/
theorem c9_queue_wait_keys (st : Conn) (h : ReachableConn st) : sameKeys st :=
  (reachable_connInv st h).1

/-- C9 witness: after init, connect and `join('foo')`, the key `foo` is
present in the queue map iff it is present in the cooldown map. -/
theorem c9_queue_wait_keys_witness :
    (lookupA (Conn.join 0 1 (Conn.init 3 0)._connect "foo").1.queue "foo").isSome ↔
    (lookupA (Conn.join 0 1 (Conn.init 3 0)._connect "foo").1.message_wait "foo").isSome :=
  c9_queue_wait_keys _
    (ReachableConn.join 0 1 _ "foo"
      (ReachableConn.conn_open _ (ReachableConn.init 3 0))) "foo"

/-! ## C6 — the ChannelMessage round trip -/

theorem string_data_append (a b : String) : (a ++ b).data = a.data ++ b.data := rfl

theorem stripCRLF_cons_ne (c : Char) (xs : List Char) (hc : c ≠ '\r') :
    stripCRLF (c :: xs) = c :: stripCRLF xs := by
  cases xs with
  | nil => rfl
  | cons d rest =>
    show (if c = '\r' ∧ d = '\n' then stripCRLF rest
          else c :: stripCRLF (d :: rest)) = _
    rw [if_neg (fun hand => hc hand.1)]

theorem stripCRLF_append_no_cr (l r : List Char) (h : '\r' ∉ l) :
    stripCRLF (l ++ r) = l ++ stripCRLF r := by
  induction l with
  | nil => simp
  | cons c cs ih =>
    have hc : c ≠ '\r' := fun he => h (he ▸ List.mem_cons_self c cs)
    have hcs : '\r' ∉ cs := fun hm => h (List.mem_cons_of_mem c hm)
    rw [List.cons_append, stripCRLF_cons_ne c _ hc, ih hcs, List.cons_append]

theorem pySplitChar_cons_sep (sep : Char) (m : Nat) (r : List Char) :
    pySplitChar sep (m + 1) (sep :: r) = [] :: pySplitChar sep m r := by
  simp [pySplitChar]

theorem pySplitChar_cons_ne (sep c : Char) (m : Nat) (r : List Char) (h : c ≠ sep) :
    pySplitChar sep (m + 1) (c :: r) = consHead c (pySplitChar sep (m + 1) r) := by
  simp [pySplitChar, h]

theorem pySplitChar_ne_nil (sep : Char) (m : Nat) (cs : List Char) :
    pySplitChar sep m cs ≠ [] := by
  cases cs with
  | nil => simp [pySplitChar]
  | cons c r =>
    cases m with
    | zero => simp [pySplitChar]
    | succ m' =>
      by_cases h : c = sep
      · subst h; rw [pySplitChar_cons_sep]; simp
      · rw [pySplitChar_cons_ne sep c m' r h]
        cases pySplitChar sep (m' + 1) r with
        | nil => simp [consHead]
        | cons a b => simp [consHead]

theorem pySplitChar_append_sep (sep : Char) (m : Nat) (l r : List Char)
    (h : sep ∉ l) :
    pySplitChar sep (m + 1) (l ++ sep :: r) = l :: pySplitChar sep m r := by
  induction l with
  | nil => simpa using pySplitChar_cons_sep sep m r
  | cons c cs ih =>
    have hc : c ≠ sep := fun he => h (he ▸ List.mem_cons_self c cs)
    have hcs : sep ∉ cs := fun hm => h (List.mem_cons_of_mem c hm)
    rw [List.cons_append, pySplitChar_cons_ne sep c m _ hc, ih hcs]
    rfl

/-- Re-parsing the serialized form of an outgoing ChannelMessage raises: the
line `PRIVMSG #<chan> :<text>\r\n` has no sender prefix, so the Twitch
pattern does not match (no `@` tag prefix) and the fallback parser finds
`#<chan...>` — not `PRIVMSG` — as its second token and raises. -/
theorem from_text_reparse_error (chan msgt : String) :
    ChannelMessage.from_text ("PRIVMSG #" ++ chan ++ " :" ++ msgt ++ "\r\n") =
      Except.error "Invalid ChannelMessage(PRIVMSG)" := by
  have hpat : privmsg_pattern_twitch
      ("PRIVMSG #" ++ chan ++ " :" ++ msgt ++ "\r\n") = none := by
    unfold privmsg_pattern_twitch
    have hsw : pyStartsWith ("PRIVMSG #" ++ chan ++ " :" ++ msgt ++ "\r\n") "@" = false := by
      unfold pyStartsWith
      show List.isPrefixOf ['@']
        ("PRIVMSG #".data ++ (chan.data ++ " :".data ++ msgt.data ++ "\r\n".data)) = false
      simp [List.isPrefixOf]
    rw [hsw]
    simp
  have hstrip : (stripRN ("PRIVMSG #" ++ chan ++ " :" ++ msgt ++ "\r\n")).data =
      "PRIVMSG #".data ++
        stripCRLF (chan.data ++ " :".data ++ msgt.data ++ "\r\n".data) := by
    show stripCRLF ("PRIVMSG #".data ++ (chan.data ++ " :".data ++ msgt.data ++ "\r\n".data)) = _
    exact stripCRLF_append_no_cr _ _ (by decide)
  have hchunks : pySplitChar ' ' 3
      ((stripRN ("PRIVMSG #" ++ chan ++ " :" ++ msgt ++ "\r\n")).data) =
      "PRIVMSG".data :: pySplitChar ' ' 2
        ('#' :: stripCRLF (chan.data ++ " :".data ++ msgt.data ++ "\r\n".data)) := by
    rw [hstrip]
    show pySplitChar ' ' 3 ("PRIVMSG".data ++
      (' ' :: '#' :: stripCRLF (chan.data ++ " :".data ++ msgt.data ++ "\r\n".data))) = _
    exact pySplitChar_append_sep ' ' 2 "PRIVMSG".data _ (by decide)
  obtain ⟨ch2, rest2, hsnd⟩ := List.exists_cons_of_ne_nil
    (pySplitChar_ne_nil ' ' 2
      (stripCRLF (chan.data ++ " :".data ++ msgt.data ++ "\r\n".data)))
  have hsecond : pySplitChar ' ' 2
      ('#' :: stripCRLF (chan.data ++ " :".data ++ msgt.data ++ "\r\n".data)) =
      ('#' :: ch2) :: rest2 := by
    rw [pySplitChar_cons_ne ' ' '#' 1 _ (by decide), hsnd]
    rfl
  have ht : pySplit (stripRN ("PRIVMSG #" ++ chan ++ " :" ++ msgt ++ "\r\n")) ' ' 3 =
      "PRIVMSG" :: (⟨'#' :: ch2⟩ : String) ::
        rest2.map (fun cs => (⟨cs⟩ : String)) := by
    unfold pySplit
    rw [hchunks, hsecond]
    rfl
  have hne : ¬ ((⟨'#' :: ch2⟩ : String) = "PRIVMSG") := by
    intro he
    have hd : '#' :: ch2 = "PRIVMSG".data := congrArg String.data he
    rw [show "PRIVMSG".data = 'P' :: "RIVMSG".data from rfl] at hd
    injection hd with hd1 hd2
    exact absurd hd1 (by decide)
  unfold ChannelMessage.from_text
  rw [hpat]
  simp only [ht]
  rfl

/-- C6 (counterexample): parse a prefixed wire line into a ChannelMessage,
serialize it with `outgoing := true` — the resulting line `PRIVMSG #foo
:hi\r\n` does not re-parse to an equal ChannelMessage: `from_text` raises on
it. -/
theorem c6_counterexample :
    ChannelMessage.from_text ":alice!alice@alice.tmi.twitch.tv PRIVMSG #foo :hi" =
      Except.ok (ChannelMessage.make "hi" "alice" "foo") ∧
    ChanMsg.toBytes { ChannelMessage.make "hi" "alice" "foo" with outgoing := true } =
      "PRIVMSG #foo :hi\r\n" ∧
    ChannelMessage.from_text "PRIVMSG #foo :hi\r\n" =
      Except.error "Invalid ChannelMessage(PRIVMSG)" := by
  refine ⟨by decide, by decide, by decide⟩

/-- C6 (amended): an outgoing ChannelMessage serializes to
`PRIVMSG #<channel> :<text>\r\n` — channel and text preserved — but that
serialized line does NOT re-parse: for every channel and text,
`ChannelMessage.from_text` raises `Invalid ChannelMessage(PRIVMSG)` on it
(the serialized outgoing line lacks the sender prefix the parser requires);
a prefixed incoming line such as the `alice` example parses as usual, so the
claimed round trip fails at the re-parsing step. -/
theorem c6_roundtrip :
    (∀ m : ChanMsg, m.outgoing = true →
       ChanMsg.toBytes m = "PRIVMSG #" ++ m.channel ++ " :" ++ m.text ++ "\r\n") ∧
    (∀ chan msgt : String,
       ChannelMessage.from_text ("PRIVMSG #" ++ chan ++ " :" ++ msgt ++ "\r\n") =
         Except.error "Invalid ChannelMessage(PRIVMSG)") ∧
    ChannelMessage.from_text ":alice!alice@alice.tmi.twitch.tv PRIVMSG #foo :hi" =
      Except.ok (ChannelMessage.make "hi" "alice" "foo") := by
  refine ⟨?_, from_text_reparse_error, by decide⟩
  intro m hm
  simp [ChanMsg.toBytes, hm]

/-- C6 witness: the amended theorem at the `alice` example — serialization
shape and the re-parse failure at channel `foo`, text `hi`. -/
theorem c6_roundtrip_witness :
    ChanMsg.toBytes { ChannelMessage.make "hi" "alice" "foo" with outgoing := true } =
      "PRIVMSG #" ++ "foo" ++ " :" ++ "hi" ++ "\r\n" ∧
    ChannelMessage.from_text ("PRIVMSG #" ++ "foo" ++ " :" ++ "hi" ++ "\r\n") =
      Except.error "Invalid ChannelMessage(PRIVMSG)" :=
  ⟨c6_roundtrip.1 _ rfl, c6_roundtrip.2.1 "foo" "hi"⟩

/-! ## C8 — automatic PONG within the tick -/

theorem lookupA_setA_isSome_mono {β : Type} (l : List (String × β)) (q k : String)
    (v : β) (h : (lookupA l k).isSome = true) :
    (lookupA (setA l q v) k).isSome = true := by
  rw [lookupA_setA]
  by_cases hqk : q = k
  · simp [hqk]
  · simp only [hqk, if_false]
    exact h

theorem flush_single_fields (st : Conn) (q : String) (nc : Bool) (mm : Nat)
    (now : Int) :
    (st.flush_single_queue q nc mm now).1.socket = st.socket ∧
    (st.flush_single_queue q nc mm now).1.hold_send = st.hold_send ∧
    ((lookupA st.queue "misc").isSome = true →
      (lookupA (st.flush_single_queue q nc mm now).1.queue "misc").isSome = true) ∧
    ((lookupA st.message_wait "misc").isSome = true →
      (lookupA (st.flush_single_queue q nc mm now).1.message_wait "misc").isSome = true) ∧
    ∃ ex, (st.flush_single_queue q nc mm now).1.sent_lines = st.sent_lines ++ ex := by
  by_cases hh : st.hold_send
  · have he : (st.flush_single_queue q nc mm now).1 = st := by
      simp [Conn.flush_single_queue, hh]
    rw [he]
    exact ⟨rfl, rfl, fun h => h, fun h => h, ⟨[], by simp⟩⟩
  · rw [Bool.not_eq_true] at hh
    cases hw : lookupA st.message_wait q with
    | none =>
      have he : (st.flush_single_queue q nc mm now).1 = st := by
        simp [Conn.flush_single_queue, hh, hw]
      rw [he]
      exact ⟨rfl, rfl, fun h => h, fun h => h, ⟨[], by simp⟩⟩
    | some w =>
      by_cases hcnd : (w > now ∧ nc = false)
      · have he : (st.flush_single_queue q nc mm now).1 = st := by
          simp [Conn.flush_single_queue, hh, hw, hcnd]
        rw [he]
        exact ⟨rfl, rfl, fun h => h, fun h => h, ⟨[], by simp⟩⟩
      · cases hq : lookupA st.queue q with
        | none =>
          have he : (st.flush_single_queue q nc mm now).1 = st := by
            simp [Conn.flush_single_queue, hh, hw, hcnd, hq]
          rw [he]
          exact ⟨rfl, rfl, fun h => h, fun h => h, ⟨[], by simp⟩⟩
        | some msgs =>
          rw [flush_single_queue_eq st q nc mm now w msgs hh hw hq hcnd]
          refine ⟨rfl, rfl, ?_, ?_, ⟨_, rfl⟩⟩
          · intro h
            exact lookupA_setA_isSome_mono _ _ _ _ h
          · intro h
            by_cases he : (msgs.take mm).isEmpty
            · simpa [he] using h
            · simp only [he, Bool.false_eq_true, if_false]
              exact lookupA_setA_isSome_mono _ _ _ _ h

theorem conn_send_fields (st : Conn) (msg : SendArg) (qa : String) (now : Int) :
    (Conn.send st msg qa now).socket = st.socket ∧
    (Conn.send st msg qa now).hold_send = st.hold_send ∧
    (Conn.send st msg qa now).sent_lines = st.sent_lines ∧
    ((lookupA st.queue "misc").isSome = true →
      (lookupA (Conn.send st msg qa now).queue "misc").isSome = true) ∧
    ((lookupA st.message_wait "misc").isSome = true →
      (lookupA (Conn.send st msg qa now).message_wait "misc").isSome = true) := by
  unfold Conn.send
  have core : ∀ q : String,
      ∀ st2 : Conn, st2 =
        (if st.socket || st.hold_send then
          { st with
              queue :=
                setA (if (lookupA st.queue q).isSome then (st.queue, st.message_wait)
                      else (setA st.queue q [], setA st.message_wait q now)).1 q
                  (((lookupA (if (lookupA st.queue q).isSome then
                        (st.queue, st.message_wait)
                      else (setA st.queue q [], setA st.message_wait q now)).1 q).getD [])
                    ++ [to_bytes msg]),
              message_wait :=
                (if (lookupA st.queue q).isSome then (st.queue, st.message_wait)
                 else (setA st.queue q [], setA st.message_wait q now)).2 }
          else st) →
      st2.socket = st.socket ∧ st2.hold_send = st.hold_send ∧
      st2.sent_lines = st.sent_lines ∧
      ((lookupA st.queue "misc").isSome = true →
        (lookupA st2.queue "misc").isSome = true) ∧
      ((lookupA st.message_wait "misc").isSome = true →
        (lookupA st2.message_wait "misc").isSome = true) := by
    intro q st2 hst2
    by_cases hs : (st.socket || st.hold_send) = true
    · rw [if_pos hs] at hst2
      by_cases hq : (lookupA st.queue q).isSome
      · simp only [hq, if_true] at hst2
        subst hst2
        exact ⟨rfl, rfl, rfl, fun h => lookupA_setA_isSome_mono _ _ _ _ h, fun h => h⟩
      · simp only [hq, Bool.false_eq_true, if_false] at hst2
        subst hst2
        refine ⟨rfl, rfl, rfl, ?_, ?_⟩
        · intro h
          exact lookupA_setA_isSome_mono _ _ _ _ (lookupA_setA_isSome_mono _ _ _ _ h)
        · intro h
          exact lookupA_setA_isSome_mono _ _ _ _ h
    · rw [if_neg hs] at hst2
      subst hst2
      exact ⟨rfl, rfl, rfl, fun h => h, fun h => h⟩
  cases msg with
  | chanMsg m =>
    by_cases hrc : m.user = "rcfile"
    · simp only [hrc, if_pos rfl]
      exact ⟨rfl, rfl, rfl, fun h => h, fun h => h⟩
    · simp only [hrc, if_neg hrc]
      exact core m.channel _ rfl
  | str s => exact core qa _ rfl

/-- Under socket-open, no-hold and the `misc` entries present, `force_send`
transmits its line immediately (appending it to the wire log) and returns 1. -/
theorem force_send_ok (lt : Int) (st : Conn) (line : String)
    (hsock : st.socket = true) (hhold : st.hold_send = false)
    (hq : (lookupA st.queue "misc").isSome = true)
    (hw : (lookupA st.message_wait "misc").isSome = true) :
    ∃ st', Conn.force_send lt st line = (st', Except.ok 1) ∧
      st'.sent_lines = st.sent_lines ++ [line] ∧
      st'.socket = true ∧ st'.hold_send = false ∧
      (lookupA st'.queue "misc").isSome = true ∧
      (lookupA st'.message_wait "misc").isSome = true := by
  obtain ⟨msgs, hmq⟩ := Option.isSome_iff_exists.mp hq
  obtain ⟨w, hmw⟩ := Option.isSome_iff_exists.mp hw
  have hfs : Conn.force_send lt st line =
      Conn.flush_single_queue { st with queue := setA st.queue "misc" (line :: msgs) }
        "misc" true 1 lt := by
    unfold Conn.force_send
    rw [hmq]
    rfl
  rw [hfs]
  have h1w : lookupA ({ st with queue := setA st.queue "misc" (line :: msgs) }).message_wait
      "misc" = some w := hmw
  have h1q : lookupA ({ st with queue := setA st.queue "misc" (line :: msgs) }).queue
      "misc" = some (line :: msgs) := by
    simp [lookupA_setA]
  have hcnd : ¬ (w > lt ∧ true = false) := by
    rintro ⟨_, hco⟩
    cases hco
  rw [flush_single_queue_eq { st with queue := setA st.queue "misc" (line :: msgs) }
    "misc" true 1 lt w (line :: msgs) hhold h1w h1q hcnd]
  refine ⟨_, rfl, ?_, hsock, hhold, ?_, ?_⟩
  · simp [hsock]
  · simp [lookupA_setA]
  · simp [lookupA_setA]

theorem foldl_apply_fields (m : ChanMsg) : ∀ (l : List Nat) (bs : BotState),
    (l.foldl (Bot.apply_command m) bs).conn = bs.conn ∧
    (l.foldl (Bot.apply_command m) bs).on_unknown_command = bs.on_unknown_command ∧
    (l.foldl (Bot.apply_command m) bs).in_rc_mode = bs.in_rc_mode := by
  intro l
  induction l with
  | nil => intro bs; exact ⟨rfl, rfl, rfl⟩
  | cons i rest ih =>
    intro bs
    simp only [List.foldl_cons]
    obtain ⟨h1, h2, h3⟩ := ih (Bot.apply_command m bs i)
    exact ⟨h1, h2, h3⟩

/-- `Bot.send` never transmits (it queues, or diverts to the rc log) and
preserves socket, hold, the `misc` entries and the policy. -/
theorem bot_send_fields (bs : BotState) (msg : SendArg) (qa : String) (now : Int) :
    (Bot.send bs msg qa now).conn.socket = bs.conn.socket ∧
    (Bot.send bs msg qa now).conn.hold_send = bs.conn.hold_send ∧
    (Bot.send bs msg qa now).conn.sent_lines = bs.conn.sent_lines ∧
    ((lookupA bs.conn.queue "misc").isSome = true →
      (lookupA (Bot.send bs msg qa now).conn.queue "misc").isSome = true) ∧
    ((lookupA bs.conn.message_wait "misc").isSome = true →
      (lookupA (Bot.send bs msg qa now).conn.message_wait "misc").isSome = true) ∧
    (Bot.send bs msg qa now).on_unknown_command = bs.on_unknown_command := by
  unfold Bot.send
  by_cases hrc : bs.in_rc_mode = true
  · rw [if_pos hrc]
    exact ⟨rfl, rfl, rfl, fun h => h, fun h => h, rfl⟩
  · rw [if_neg hrc]
    obtain ⟨h1, h2, h3, h4, h5⟩ := conn_send_fields bs.conn msg qa now
    exact ⟨h1, h2, h3, h4, h5, rfl⟩

/-- Under a valid unknown-command policy, `_call_command_handlers` never
raises and transmits nothing (replies are queued, not force-sent); it
preserves the socket, the hold flag, the `misc` entries and the policy. -/
theorem call_command_handlers_ok (now : Int) (bs : BotState) (m : ChanMsg)
    (hpol : bs.on_unknown_command = "warn" ∨ bs.on_unknown_command = "chat_message" ∨
      bs.on_unknown_command = "ignore") :
    ∃ bs', Bot._call_command_handlers now bs m = (bs', Except.ok ()) ∧
      bs'.conn.socket = bs.conn.socket ∧ bs'.conn.hold_send = bs.conn.hold_send ∧
      ((lookupA bs.conn.queue "misc").isSome = true →
        (lookupA bs'.conn.queue "misc").isSome = true) ∧
      ((lookupA bs.conn.message_wait "misc").isSome = true →
        (lookupA bs'.conn.message_wait "misc").isSome = true) ∧
      bs'.on_unknown_command = bs.on_unknown_command ∧
      bs'.conn.sent_lines = bs.conn.sent_lines := by
  unfold Bot._call_command_handlers
  obtain ⟨hc, hp, hrc⟩ := foldl_apply_fields
    (call_command_handlers_indices bs.pref bs.commands m).2.1
    (call_command_handlers_indices bs.pref bs.commands m).1 bs
  by_cases hu : (call_command_handlers_indices bs.pref bs.commands m).2.2 = true
  · rw [if_pos hu]
    rcases hpol with hpv | hpv | hpv
    · have hsel : Bot._do_unknown_command now
          ((call_command_handlers_indices bs.pref bs.commands m).1.foldl
            (Bot.apply_command (call_command_handlers_indices bs.pref bs.commands m).2.1) bs)
          (call_command_handlers_indices bs.pref bs.commands m).2.1 =
          ({ (call_command_handlers_indices bs.pref bs.commands m).1.foldl
              (Bot.apply_command (call_command_handlers_indices bs.pref bs.commands m).2.1) bs
             with events :=
              ((call_command_handlers_indices bs.pref bs.commands m).1.foldl
                (Bot.apply_command (call_command_handlers_indices bs.pref bs.commands m).2.1) bs).events
              ++ [BotEvent.warnUnknown (call_command_handlers_indices bs.pref bs.commands m).2.1] },
           Except.ok ()) := by
        unfold Bot._do_unknown_command
        rw [if_pos (by rw [hp, hpv])]
      rw [hsel]
      refine ⟨_, rfl, ?_, ?_, ?_, ?_, ?_, ?_⟩ <;> simp [hc, hp, hpv]
    · have hcc : ((call_command_handlers_indices bs.pref bs.commands m).1.foldl
          (Bot.apply_command (call_command_handlers_indices bs.pref bs.commands m).2.1) bs).on_unknown_command
          = "chat_message" := by rw [hp, hpv]
      have hsel : Bot._do_unknown_command now
          ((call_command_handlers_indices bs.pref bs.commands m).1.foldl
            (Bot.apply_command (call_command_handlers_indices bs.pref bs.commands m).2.1) bs)
          (call_command_handlers_indices bs.pref bs.commands m).2.1 =
          (Bot.send
            ((call_command_handlers_indices bs.pref bs.commands m).1.foldl
              (Bot.apply_command (call_command_handlers_indices bs.pref bs.commands m).2.1) bs)
            (SendArg.chanMsg (ChanMsg.reply
              (call_command_handlers_indices bs.pref bs.commands m).2.1
              ("Unknown command " ++
                ((pySplit ((call_command_handlers_indices bs.pref bs.commands m).2.1).text
                  ' ' 1).headD ""))))
            ((ChanMsg.reply (call_command_handlers_indices bs.pref bs.commands m).2.1
              ("Unknown command " ++
                ((pySplit ((call_command_handlers_indices bs.pref bs.commands m).2.1).text
                  ' ' 1).headD ""))).channel) now,
           Except.ok ()) := by
        unfold Bot._do_unknown_command
        rw [if_neg (by rw [hcc]; decide), if_pos hcc]
      rw [hsel]
      obtain ⟨hb1, hb2, hb3, hb4, hb5, hb6⟩ := bot_send_fields
        ((call_command_handlers_indices bs.pref bs.commands m).1.foldl
          (Bot.apply_command (call_command_handlers_indices bs.pref bs.commands m).2.1) bs)
        (SendArg.chanMsg (ChanMsg.reply
          (call_command_handlers_indices bs.pref bs.commands m).2.1
          ("Unknown command " ++
            ((pySplit ((call_command_handlers_indices bs.pref bs.commands m).2.1).text
              ' ' 1).headD ""))))
        ((ChanMsg.reply (call_command_handlers_indices bs.pref bs.commands m).2.1
          ("Unknown command " ++
            ((pySplit ((call_command_handlers_indices bs.pref bs.commands m).2.1).text
              ' ' 1).headD ""))).channel) now
      refine ⟨_, rfl, ?_, ?_, ?_, ?_, ?_, ?_⟩
      · rw [hb1, hc]
      · rw [hb2, hc]
      · rw [hc] at hb4
        exact hb4
      · rw [hc] at hb5
        exact hb5
      · rw [hb6, hp, hpv]
      · rw [hb3, hc]
    · have hsel : Bot._do_unknown_command now
          ((call_command_handlers_indices bs.pref bs.commands m).1.foldl
            (Bot.apply_command (call_command_handlers_indices bs.pref bs.commands m).2.1) bs)
          (call_command_handlers_indices bs.pref bs.commands m).2.1 =
          ((call_command_handlers_indices bs.pref bs.commands m).1.foldl
            (Bot.apply_command (call_command_handlers_indices bs.pref bs.commands m).2.1) bs,
           Except.ok ()) := by
        unfold Bot._do_unknown_command
        rw [if_neg (by rw [hp, hpv]; decide), if_neg (by rw [hp, hpv]; decide),
          if_pos (by rw [hp, hpv])]
      rw [hsel]
      exact ⟨_, rfl, by rw [hc], by rw [hc], by rw [hc]; exact fun h => h,
        by rw [hc]; exact fun h => h, hp, by rw [hc]⟩
  · rw [if_neg hu]
    exact ⟨_, rfl, by rw [hc], by rw [hc], by rw [hc]; exact fun h => h,
      by rw [hc]; exact fun h => h, hp, by rw [hc]⟩

/-- One handler-loop step: under `TickOK` it never raises, preserves `TickOK`,
only extends the transmit log, and a Ping step puts its `PONG <host>\r\n`
line (no colon) onto the wire log. -/
theorem tick_message_ok (lt now : Int) (bs : BotState) (i : IrcMessage)
    (h : TickOK bs) :
    ∃ bs', Bot.tick_message lt now bs i = (bs', Except.ok ()) ∧ TickOK bs' ∧
      (∀ x ∈ bs.conn.sent_lines, x ∈ bs'.conn.sent_lines) ∧
      (∀ (host : Option String) (a : String) (og : Bool),
        i = IrcMessage.ping host a og →
        ("PONG " ++ pyStrOfOptHost host ++ "\r\n") ∈ bs'.conn.sent_lines) := by
  obtain ⟨h1, h2, h3, h4, h5⟩ := h
  cases i with
  | ping host a og =>
    obtain ⟨st', hfs, hsent, hsock, hhold, hq', hw'⟩ :=
      force_send_ok lt bs.conn ("PONG " ++ pyStrOfOptHost host ++ "\r\n") h1 h2 h3 h4
    have hstep : Bot.tick_message lt now bs (IrcMessage.ping host a og) =
        ({ { bs with events := bs.events ++ [BotEvent.anyMsg (IrcMessage.ping host a og)] }
           with conn := st',
                receive_queue := pyRemoveFirst bs.receive_queue (IrcMessage.ping host a og) },
         Except.ok ()) := by
      unfold Bot.tick_message
      simp only []
      rw [hfs]
    rw [hstep]
    refine ⟨_, rfl, ⟨hsock, hhold, hq', hw', h5⟩, ?_, ?_⟩
    · intro x hx
      rw [hsent]
      exact List.mem_append_left _ hx
    · intro host' a' og' he
      injection he with he1 he2 he3
      subst he1
      rw [hsent]
      exact List.mem_append_right _ (List.mem_singleton.mpr rfl)
  | chan m =>
    obtain ⟨bs2, hcall, hb1, hb2, hb3, hb4, hb5, hb6⟩ :=
      call_command_handlers_ok now
        { { bs with events := bs.events ++ [BotEvent.anyMsg (IrcMessage.chan m)] }
          with events :=
            ({ bs with events := bs.events ++ [BotEvent.anyMsg (IrcMessage.chan m)] }).events
            ++ [BotEvent.chatMsg m] } m h5
    have hstep : Bot.tick_message lt now bs (IrcMessage.chan m) =
        ({ bs2 with receive_queue := pyRemoveFirst bs2.receive_queue (IrcMessage.chan m) },
         Except.ok ()) := by
      unfold Bot.tick_message
      simp only []
      rw [hcall]
    rw [hstep]
    have hb1' : bs2.conn.socket = bs.conn.socket := hb1
    have hb2' : bs2.conn.hold_send = bs.conn.hold_send := hb2
    have hb3' : (lookupA bs.conn.queue "misc").isSome = true →
        (lookupA bs2.conn.queue "misc").isSome = true := hb3
    have hb4' : (lookupA bs.conn.message_wait "misc").isSome = true →
        (lookupA bs2.conn.message_wait "misc").isSome = true := hb4
    have hb5' : bs2.on_unknown_command = bs.on_unknown_command := hb5
    have hb6' : bs2.conn.sent_lines = bs.conn.sent_lines := hb6
    refine ⟨_, rfl, ⟨by rw [hb1', h1], by rw [hb2', h2], hb3' h3, hb4' h4,
      by rw [hb5']; exact h5⟩, ?_, ?_⟩
    · intro x hx
      rw [hb6']
      exact hx
    · intro host' a' og' he
      exact absurd he (by simp)
  | raw a og =>
    exact ⟨_, rfl, ⟨h1, h2, h3, h4, h5⟩, fun x hx => hx,
      fun host a' og' he => nomatch he⟩
  | whisper fl f t tx og =>
    exact ⟨_, rfl, ⟨h1, h2, h3, h4, h5⟩, fun x hx => hx,
      fun host a' og' he => nomatch he⟩
  | pong hst og =>
    exact ⟨_, rfl, ⟨h1, h2, h3, h4, h5⟩, fun x hx => hx,
      fun host a' og' he => nomatch he⟩
  | notice t mi ch hst a og =>
    exact ⟨_, rfl, ⟨h1, h2, h3, h4, h5⟩, fun x hx => hx,
      fun host a' og' he => nomatch he⟩
  | globalNotice t hst a og =>
    exact ⟨_, rfl, ⟨h1, h2, h3, h4, h5⟩, fun x hx => hx,
      fun host a' og' he => nomatch he⟩
  | join u ch og =>
    exact ⟨_, rfl, ⟨h1, h2, h3, h4, h5⟩, fun x hx => hx,
      fun host a' og' he => nomatch he⟩
  | part u ch og =>
    exact ⟨_, rfl, ⟨h1, h2, h3, h4, h5⟩, fun x hx => hx,
      fun host a' og' he => nomatch he⟩
  | usernotice f ch og =>
    exact ⟨_, rfl, ⟨h1, h2, h3, h4, h5⟩, fun x hx => hx,
      fun host a' og' he => nomatch he⟩

theorem run_once_go_ok (lt now : Int) :
    ∀ (ms : List IrcMessage) (bs : BotState), TickOK bs →
    ∃ bs', Bot.run_once_go lt now ms bs = (bs', Except.ok ()) ∧ TickOK bs' ∧
      (∀ x ∈ bs.conn.sent_lines, x ∈ bs'.conn.sent_lines) ∧
      (∀ (host : Option String) (a : String) (og : Bool),
        IrcMessage.ping host a og ∈ ms →
        ("PONG " ++ pyStrOfOptHost host ++ "\r\n") ∈ bs'.conn.sent_lines) := by
  intro ms
  induction ms with
  | nil =>
    intro bs h
    exact ⟨bs, rfl, h, fun x hx => hx,
      fun host a og hm => absurd hm (List.not_mem_nil _)⟩
  | cons i rest ih =>
    intro bs h
    obtain ⟨bs1, hstep, hok1, hmono1, hping1⟩ := tick_message_ok lt now bs i h
    obtain ⟨bs', hrun, hok', hmono', hping'⟩ := ih bs1 hok1
    have hgo : Bot.run_once_go lt now (i :: rest) bs =
        Bot.run_once_go lt now rest bs1 := by
      simp only [Bot.run_once_go]
      rw [hstep]
    refine ⟨bs', by rw [hgo, hrun], hok', fun x hx => hmono' x (hmono1 x hx), ?_⟩
    intro host a og hm
    rcases List.mem_cons.mp hm with he | hm2
    · exact hmono' _ (hping1 host a og he.symm)
    · exact hping' host a og hm2

theorem flush_queue_go_sent_mono (mm : Nat) (now : Int) :
    ∀ (l : List String) (st : Conn) (acc : Nat) (x : String),
      x ∈ st.sent_lines → x ∈ (Conn.flush_queue_go mm now l st acc).1.sent_lines := by
  intro l
  induction l with
  | nil =>
    intro st acc x hx
    simpa [Conn.flush_queue_go] using hx
  | cons q rest ih =>
    intro st acc x hx
    unfold Conn.flush_queue_go
    cases hf : st.flush_single_queue q false mm now with
    | mk st' r =>
      have hx' : x ∈ st'.sent_lines := by
        obtain ⟨-, -, -, -, ex, hex⟩ := flush_single_fields st q false mm now
        rw [hf] at hex
        rw [hex]
        exact List.mem_append_left _ hx
      cases r with
      | ok n => exact ih st' (acc + n) x hx'
      | error e => exact hx'

theorem flush_queue_sent_mono (st : Conn) (mm : Nat) (now : Int) (x : String)
    (hx : x ∈ st.sent_lines) : x ∈ (st.flush_queue mm now).1.sent_lines := by
  unfold Conn.flush_queue
  by_cases hh : st.hold_send
  · simpa [hh] using hx
  · simp only [hh, Bool.false_eq_true, if_false]
    exact flush_queue_go_sent_mono mm now (keysA st.queue) st 0 x hx

/-- C8 (counterexample): an incoming `PING :tmi.twitch.tv` parsed into the
receive queue yields, within the tick, the wire line `PONG tmi.twitch.tv\r\n`
— NOT the claimed `PONG :tmi.twitch.tv` — because `_run_once` formats
`'PONG {}'` without the colon. -/
theorem c8_counterexample :
    ping_pattern "PING :tmi.twitch.tv\r\n" = some "tmi.twitch.tv" ∧
    PingMessage.from_match "tmi.twitch.tv" ∈ c8bot.receive_queue ∧
    "PONG tmi.twitch.tv\r\n" ∈ ((Bot._run_once 0 10 c8bot).1).conn.sent_lines ∧
    "PONG :tmi.twitch.tv\r\n" ∉ ((Bot._run_once 0 10 c8bot).1).conn.sent_lines := by
  refine ⟨by decide, by decide, by decide, by decide⟩

/-- C8 (amended): for every incoming Ping event with host `h` processed by
one main-loop tick (socket open, send-hold off, the `misc` queue registered,
and a valid unknown-command policy), the loop sends, within that same tick
and via the immediate-send path (`force_send`, which prepends to `misc` and
flushes it at once ignoring the cooldown), the wire line `PONG ` followed by
`h` (with NO colon before the host). -/
theorem c8_ping_pong (lt now : Int) (bs : BotState) (host : Option String)
    (a : String) (og : Bool) (h : TickOK bs)
    (hm : IrcMessage.ping host a og ∈ bs.receive_queue) :
    ("PONG " ++ pyStrOfOptHost host ++ "\r\n") ∈
      ((Bot._run_once lt now bs).1).conn.sent_lines := by
  obtain ⟨bs', hrun, hok, hmono, hping⟩ := run_once_go_ok lt now bs.receive_queue bs h
  have hline := hping host a og hm
  unfold Bot._run_once
  rw [hrun]
  by_cases hch : bs'.conn.channels_connected.isEmpty
  · simp only [hch, if_true]
    exact hline
  · simp only [hch, Bool.false_eq_true, if_false]
    cases hfq : bs'.conn.flush_queue 100 now with
    | mk c' r =>
      have hm2 : ("PONG " ++ pyStrOfOptHost host ++ "\r\n") ∈ c'.sent_lines := by
        have := flush_queue_sent_mono bs'.conn 100 now _ hline
        rwa [hfq] at this
      cases r with
      | ok n => exact hm2
      | error e => exact hm2

/-- C8 witness: the amended theorem at the concrete bot state holding the
parsed `PING :tmi.twitch.tv` event. -/
theorem c8_ping_pong_witness :
    TickOK c8bot ∧
    ("PONG " ++ pyStrOfOptHost (some "tmi.twitch.tv") ++ "\r\n") ∈
      ((Bot._run_once 0 10 c8bot).1).conn.sent_lines := by
  have hok : TickOK c8bot := by
    refine ⟨rfl, rfl, by decide, by decide, Or.inr (Or.inr rfl)⟩
  exact ⟨hok, c8_ping_pong 0 10 c8bot (some "tmi.twitch.tv") "PING :None" false hok
    (by decide)⟩
